import Mathlib

/-!
# coreos-metadata: the Packet provider's network model and attributes

A shallow embedding of `internal/providers/packet/packet.go` (`parseNetwork`,
`getNetworkAttrs`) together with the few pieces of Go's `net` package that the
code calls, followed by theorems about them.

Conventions of the embedding

* A Go byte slice (`net.IP`, `net.IPMask`, `net.HardwareAddr`) is the list of its
  bytes, each byte a natural number below 256.  A nil slice and an empty slice
  both have length zero and are both the empty list.
* Where the source tests a slice against `nil` or returns a literal `nil`, the
  embedding uses `Option`, with `none` for `nil`.
* A Go `map[string]string` is an association list whose keys are pairwise
  distinct; assignment replaces the value of a key that is present and adds the
  key otherwise.  The order of the list is the order in which the keys were
  first assigned; a Go map has no order, and no statement depends on it.
* Functions of Go's standard library (`net.ParseMAC`, `net.IPv4`, `IP.To4`,
  `IPMask.Size`, `IP.String`) are embedded from their definition in the
  standard library.  `parseNetwork` and `getNetworkAttrs` take `net.ParseMAC`
  and `providers.String` as parameters, so that what is proved about them holds
  for every such function.
-/

namespace Net

/-- Go `net.IP`: a slice of bytes (4 bytes for IPv4, 16 for IPv6). -/
abbrev IP := List Nat

/-- Go `net.IPMask`: a slice of bytes. -/
abbrev IPMask := List Nat

/-- Go `net.HardwareAddr`: a slice of bytes. -/
abbrev HardwareAddr := List Nat

/-- Go `net.IPv4len`. -/
def IPv4len : Nat := 4

/-- Go `net.IPv6len`. -/
def IPv6len : Nat := 16

/-- Go `net.IPNet`: an IP network, a pair of an address and a mask. -/
structure IPNet where
  IP : IP
  Mask : IPMask
  deriving DecidableEq

/-- Go `make([]byte, n)`: a slice of `n` zero bytes. -/
def makeBytes (n : Nat) : List Nat := List.replicate n 0

/-- Go `net.v4InV6Prefix`: the twelve bytes that precede an IPv4 address in its
16-byte form. -/
def v4InV6Pfx : List Nat := [0, 0, 0, 0, 0, 0, 0, 0, 0, 0, 0xff, 0xff]

/-- Go `net.IPv4(a, b, c, d)`: the address a.b.c.d in its 16-byte form
(`make(IP, IPv6len)`, the prefix copied in, then the four bytes). -/
def IPv4 (a b c d : Nat) : IP := v4InV6Pfx ++ [a, b, c, d]

/-- Go `net.IPv4Mask(a, b, c, d)`: the 4-byte mask a.b.c.d. -/
def IPv4Mask (a b c d : Nat) : IPMask := [a, b, c, d]

/-- Go `net.isZeros`: every byte of the slice is zero. -/
def isZeros (p : List Nat) : Bool := p.all (fun b => b == 0)

/-- Go `(ip IP) To4()`: the 4-byte form of an address that is representable as
IPv4, and `nil` (here `none`) otherwise.  A 4-byte slice is returned as it is; a
16-byte slice whose first ten bytes are zero and whose next two are 0xff yields
its last four bytes. -/
def To4 (ip : IP) : Option IP :=
  if ip.length = IPv4len then some ip
  else if ip.length = IPv6len ∧ isZeros (ip.take 10) ∧
      ip.getD 10 0 = 0xff ∧ ip.getD 11 0 = 0xff then
    some ((ip.drop 12).take 4)
  else none

/-- Go `net.simpleMaskLength`: the number of leading one bits of a mask that
consists of ones followed by zeros, and -1 for any other mask. -/
def simpleMaskLength : IPMask → Int
  | [] => 0
  | v :: rest =>
    if v = 0xff then
      match simpleMaskLength rest with
      | -1 => -1
      | n => n + 8
    else
      -- the first byte that is not 0xff: count its leading ones, the remaining
      -- bits of it and all later bytes must be zero
      let ones := (List.range 8).takeWhile (fun i => v.testBit (7 - i))
      let n := ones.length
      if (v % 2 ^ (8 - n)) ≠ 0 then -1
      else if rest.all (fun b => b == 0) then (n : Int) else -1

/-- Value of one hexadecimal digit, as in the three branches of Go `net.xtoi`. -/
def hexVal (c : Char) : Option Nat :=
  if '0' ≤ c ∧ c ≤ '9' then some (c.toNat - '0'.toNat)
  else if 'a' ≤ c ∧ c ≤ 'f' then some (c.toNat - 'a'.toNat + 10)
  else if 'A' ≤ c ∧ c ≤ 'F' then some (c.toNat - 'A'.toNat + 10)
  else none

/-- Go `net.xtoi2(s, e)`: the byte written by the first two characters of `s`
as hexadecimal digits; when `s` is longer than two characters the third must be
`e`.  `none` stands for the result `ok = false`. -/
def xtoi2 (s : List Char) (e : Char) : Option Nat :=
  match s with
  | c0 :: c1 :: rest =>
    if rest.head?.any (fun c2 => c2 ≠ e) then none
    else
      match hexVal c0, hexVal c1 with
      | some h, some l => some (h * 16 + l)
      | _, _ => none
  | _ => none

/-- The loop of `net.ParseMAC` for the forms `01:23:45:67:89:ab` and
`01-23-45-67-89-ab`: `n` groups, the reading position advancing by three. -/
def macGroups3 (sep : Char) : Nat → List Char → Option (List Nat)
  | 0, _ => some []
  | n + 1, s =>
    match xtoi2 s sep with
    | none => none
    | some b => (macGroups3 sep n (s.drop 3)).map (fun hw => b :: hw)

/-- The loop of `net.ParseMAC` for the form `0123.4567.89ab`: two bytes for each
group, the reading position advancing by five. -/
def macGroups5 (sep : Char) : Nat → List Char → Option (List Nat)
  | 0, _ => some []
  | n + 1, s =>
    match xtoi2 (s.take 2) (Char.ofNat 0), xtoi2 (s.drop 2) sep with
    | some b0, some b1 => (macGroups5 sep n (s.drop 5)).map (fun hw => b0 :: b1 :: hw)
    | _, _ => none

/-- Go `net.ParseMAC` of the standard library: a 6-, 8- or 20-byte hardware
address written as colon- or hyphen-separated bytes or as dot-separated byte
pairs; every other string is an error.  Go indexes the bytes of the string and
the embedding its characters, which is the same for an ASCII string; a string
with any other character is rejected by both, since every position must hold a
hexadecimal digit or the separator. -/
def ParseMAC (str : String) : Except String HardwareAddr :=
  let s := str.data
  let bad : Except String HardwareAddr := .error "invalid MAC address"
  if s.length < 14 then bad
  else if s.getD 2 ' ' = ':' ∨ s.getD 2 ' ' = '-' then
    if (s.length + 1) % 3 ≠ 0 then bad
    else
      let n := (s.length + 1) / 3
      if n ≠ 6 ∧ n ≠ 8 ∧ n ≠ 20 then bad
      else
        match macGroups3 (s.getD 2 ' ') n s with
        | some hw => .ok hw
        | none => bad
  else if s.getD 4 ' ' = '.' then
    if (s.length + 1) % 5 ≠ 0 then bad
    else
      let n := 2 * (s.length + 1) / 5
      if n ≠ 6 ∧ n ≠ 8 ∧ n ≠ 20 then bad
      else
        match macGroups5 (s.getD 4 ' ') (n / 2) s with
        | some hw => .ok hw
        | none => bad
  else bad

end Net

namespace Packet

open Net

/-- An entry of `metadata.NetworkInfo.Interfaces` (package packngo/metadata):
the field that the code reads is the MAC string. -/
structure InterfaceInfo where
  MAC : String
  deriving DecidableEq

/-- An entry of `metadata.NetworkInfo.Addresses` (`metadata.AddressInfo` of
package packngo/metadata), with the fields that the code reads. -/
structure AddressInfo where
  Family : Int
  Public : Bool
  Address : IP
  NetworkMask : IPMask
  Gateway : IP
  deriving DecidableEq

/-- The `metadata.NetworkInfo` of package packngo/metadata, with the two lists
that the code reads. -/
structure NetworkInfo where
  Interfaces : List InterfaceInfo
  Addresses : List AddressInfo
  deriving DecidableEq

/-- Modelled from the spec: `providers.NetworkRoute` is declared in
`internal/providers`, which is not among the sources; a route is a destination
network and a gateway. -/
structure NetworkRoute where
  Destination : IPNet
  Gateway : IP
  deriving DecidableEq

/-- Modelled from the spec: `providers.NetworkInterface` is declared in
`internal/providers`, which is not among the sources.  The spec gives it an
optional hardware address, an integer priority, an ordered list of address and
mask pairs and an ordered list of routes.  The defaults are Go's zero values:
no hardware address (a nil `net.HardwareAddr`), priority 0, nil lists.  The
slice that a successful `net.ParseMAC` returns is never nil, so an interface
built from it has `some` hardware address. -/
structure NetworkInterface where
  HardwareAddress : Option HardwareAddr := none
  Priority : Int := 0
  IPAddresses : List IPNet := []
  Routes : List NetworkRoute := []
  deriving DecidableEq

/-- The error value built in `parseNetwork` by
`fmt.Errorf("parsing MAC address %q: %v", iface.MAC, err)`, kept as its two
arguments. -/
inductive ParseError where
  | parsingMAC (mac : String) (cause : String)
  deriving DecidableEq

/-- First loop of `parseNetwork` (lines 73-82): parse each MAC in turn, return
the error of the first one that fails, otherwise append an interface holding
only the hardware address.  `ifaces` is the slice built so far. -/
def parseInterfaces (parseMAC : String → Except String HardwareAddr) :
    List InterfaceInfo → List NetworkInterface → Except ParseError (List NetworkInterface)
  | [], ifaces => .ok ifaces
  | iface :: rest, ifaces =>
    match parseMAC iface.MAC with
    | .error err => .error (ParseError.parsingMAC iface.MAC err)
    | .ok mac => parseInterfaces parseMAC rest (ifaces ++ [{ HardwareAddress := some mac }])

/-- Lines 107-114 of `parseNetwork`: append the address with its own mask to
`IPAddresses` and a route to `dest` through the record's gateway to `Routes`. -/
def appendAddress (iface : NetworkInterface) (addr : AddressInfo) (dest : IPNet) :
    NetworkInterface :=
  { iface with
    IPAddresses := iface.IPAddresses ++ [{ IP := addr.Address, Mask := addr.NetworkMask }]
    Routes := iface.Routes ++ [{ Destination := dest, Gateway := addr.Gateway }] }

/-- The network literal of lines 101-104 of `parseNetwork`:
`net.IPNet{IP: net.IPv4(10, 0, 0, 0), Mask: net.IPMask(net.IPv4(255, 0, 0, 0))}`.
The mask is the conversion of the 16-byte address 255.0.0.0 to the mask type. -/
def privateDestination : IPNet :=
  { IP := IPv4 10 0 0 0, Mask := IPv4 255 0 0 0 }

/-- Body of the second loop of `parseNetwork` (lines 88-114) for one address
record; `continue` leaves the interface as it is. -/
def addAddress (iface : NetworkInterface) (addr : AddressInfo) : NetworkInterface :=
  let addrlen : Nat := if (To4 addr.Address).isSome then 4 else 16
  let dest : IPNet := { IP := makeBytes addrlen, Mask := makeBytes addrlen }
  if !addr.Public then
    if addrlen = 16 then
      -- private IPv6 address??
      iface
    else
      let dest : IPNet := privateDestination
      appendAddress iface addr dest
  else
    appendAddress iface addr dest

/-- Lines 84-115 of `parseNetwork`: the interface of priority 5 after the loop
over the address records. -/
def aggregateInterface (addresses : List AddressInfo) : NetworkInterface :=
  addresses.foldl addAddress { Priority := 5 }

/-- Go `parseNetwork`, with the result pair of the source: the slice (`none` for
the literal `nil`) and the error (`none` for a nil error).  `parseMAC` stands
for `net.ParseMAC`. -/
def parseNetwork (parseMAC : String → Except String HardwareAddr) (network : NetworkInfo) :
    Option (List NetworkInterface) × Option ParseError :=
  match parseInterfaces parseMAC network.Interfaces [] with
  | .error err => (none, some err)
  | .ok ifaces => (some (ifaces ++ [aggregateInterface network.Addresses]), none)


/-- The records for which the loop body of `parseNetwork` reaches its two
appends: all but those that are not public and have `To4() == nil`, for which it
executes `continue`. -/
def isKept (addr : AddressInfo) : Bool :=
  addr.Public || (To4 addr.Address).isSome

/-- Position, in the lists of the aggregate interface, of the entry that comes
from the record at index `i`: the number of earlier records that were not
skipped. -/
def keptIndex (addresses : List AddressInfo) (i : Nat) : Nat :=
  ((addresses.take i).filter isKept).length

/-- The value of `dest` when the loop body of `parseNetwork` reaches its two
appends. -/
def destinationOf (addr : AddressInfo) : IPNet :=
  if addr.Public then
    if (To4 addr.Address).isSome then { IP := makeBytes 4, Mask := makeBytes 4 }
    else { IP := makeBytes 16, Mask := makeBytes 16 }
  else privateDestination

/-- A network with two interfaces whose MAC strings parse and four address
records: public IPv4, private IPv4, private IPv6 and public IPv6. -/
def sampleNetwork : NetworkInfo :=
  { Interfaces := [{ MAC := "01:23:45:67:89:ab" }, { MAC := "0123.4567.89ac" }]
    Addresses :=
      [ { Family := 4, Public := true, Address := IPv4 1 2 3 4,
          NetworkMask := IPv4Mask 255 255 255 254, Gateway := IPv4 1 2 3 5 },
        { Family := 4, Public := false, Address := IPv4 10 1 1 1,
          NetworkMask := IPv4Mask 255 255 255 254, Gateway := IPv4 10 1 1 0 },
        { Family := 6, Public := false,
          Address := [0xfd, 0, 0, 0, 0, 0, 0, 0, 0, 0, 0, 0, 0, 0, 0, 1],
          NetworkMask := List.replicate 8 0xff ++ List.replicate 8 0,
          Gateway := [0xfd, 0, 0, 0, 0, 0, 0, 0, 0, 0, 0, 0, 0, 0, 0, 0] },
        { Family := 6, Public := true,
          Address := [0x26, 4, 0x13, 0x80, 0, 0, 0, 0, 0, 0, 0, 0, 0, 0, 0, 1],
          NetworkMask := List.replicate 15 0xff ++ [0xfe],
          Gateway := [0x26, 4, 0x13, 0x80, 0, 0, 0, 0, 0, 0, 0, 0, 0, 0, 0, 0] } ] }

/-- The sample network without its address records. -/
def noAddressNetwork : NetworkInfo :=
  { sampleNetwork with Addresses := [] }

/-- The sample network with a second interface whose MAC string does not parse. -/
def badMACNetwork : NetworkInfo :=
  { sampleNetwork with
    Interfaces := [{ MAC := "01:23:45:67:89:ab" }, { MAC := "not-a-mac" }] }

end Packet

namespace Net

/-- Go `net.IP.String` for a 16-byte address that is not representable as IPv4:
the eight 16-bit groups in lower-case hexadecimal without leading zeros,
separated by colons, with the first longest run of two or more zero groups
written as `::`. -/
def ipv6Text (p : IP) : String :=
  let groups : List Nat := (List.range 8).map (fun i => p.getD (2 * i) 0 * 256 + p.getD (2 * i + 1) 0)
  let hex : Nat → String := fun g => String.mk (Nat.toDigits 16 g)
  -- length of the run of zero groups that starts at group `i`
  let run : Nat → Nat := fun i => ((groups.drop i).takeWhile (fun g => g == 0)).length
  -- the scan of the source: a run replaces the best one only when it is
  -- strictly longer, and the scan resumes after the run it has taken
  let scan : Nat × Nat × Nat → Nat → Nat × Nat × Nat := fun st i =>
    -- `st` is (start of the best run, its length, first group not yet scanned)
    if i < st.2.2 then st
    else if run i > st.2.1 then (i, run i, i + run i + 1)
    else st
  let best := (List.range 8).foldl scan (0, 0, 0)
  if best.2.1 ≤ 1 then
    String.intercalate ":" (groups.map hex)
  else
    String.intercalate ":" ((groups.take best.1).map hex) ++ "::" ++
      String.intercalate ":" ((groups.drop (best.1 + best.2.1)).map hex)

/-- Go `net.IP.String`: `<nil>` for an empty address, dotted decimal for an
address representable as IPv4, `?` and the bytes in hexadecimal for any other
address that is not 16 bytes long, and the IPv6 text otherwise. -/
def IP.String (ip : IP) : String :=
  if ip.length = 0 then "<nil>"
  else
    match To4 ip with
    | some [a, b, c, d] =>
      toString a ++ "." ++ toString b ++ "." ++ toString c ++ "." ++ toString d
    | _ =>
      if ip.length ≠ IPv6len then
        "?" ++ String.join (ip.map (fun b =>
          String.mk [Nat.digitChar (b / 16), Nat.digitChar (b % 16)]))
      else ipv6Text ip

end Net

namespace Packet

open Net

/-- Modelled from the spec: `providers.String` is defined in
`internal/providers`, which is not among the sources.  The spec makes the value
of an attribute the canonical string representation of the address; this is the
text that Go's `net.IP.String` gives, and the empty string for a nil address. -/
def providersString (ip : IP) : String :=
  if ip = [] then "" else IP.String ip

/-- Go `map[string]string`: an association list with pairwise distinct keys. -/
abbrev StringMap := List (String × String)

/-- Go `m[k] = v`: replace the value of `k` when the key is present, add the
entry otherwise. -/
def StringMap.set : StringMap → String → String → StringMap
  | [], k, v => [(k, v)]
  | (k', v') :: rest, k, v =>
    if k' = k then (k, v) :: rest else (k', v') :: StringMap.set rest k v

/-- Go `v, ok := m[k]`. -/
def StringMap.get? (m : StringMap) (k : String) : Option String :=
  List.lookup k m

/-- Go `len(m)`. -/
def StringMap.len (m : StringMap) : Nat := m.length

/-- The keys of a map. -/
def StringMap.keys (m : StringMap) : List String := m.map (fun e => e.1)

/-- The four slices that the first loop of `getNetworkAttrs` fills. -/
structure Buckets where
  publicIPv4 : List IP := []
  privateIPv4 : List IP := []
  publicIPv6 : List IP := []
  privateIPv6 : List IP := []
  deriving DecidableEq

/-- The `switch` of lines 125-137 of `getNetworkAttrs` for one address record;
a record that matches no case changes nothing. -/
def classify (b : Buckets) (addr : AddressInfo) : Buckets :=
  if addr.Family = 4 && addr.Public then
    { b with publicIPv4 := b.publicIPv4 ++ [addr.Address] }
  else if addr.Family = 4 && !addr.Public then
    { b with privateIPv4 := b.privateIPv4 ++ [addr.Address] }
  else if addr.Family = 6 && addr.Public then
    { b with publicIPv6 := b.publicIPv6 ++ [addr.Address] }
  else if addr.Family = 6 && !addr.Public then
    { b with privateIPv6 := b.privateIPv6 ++ [addr.Address] }
  else b

/-- One of the four loops of lines 142-156 of `getNetworkAttrs`, from index `i`
on: `addresses[fmt.Sprintf(pfx + "%d", i)] = providers.String(ip)` for each
address of the slice.  `str` stands for `providers.String`. -/
def setIndexed (str : IP → String) (pfx : String) :
    List IP → Nat → StringMap → StringMap
  | [], _, addresses => addresses
  | ip :: rest, i, addresses =>
    setIndexed str pfx rest (i + 1) (addresses.set (pfx ++ toString i) (str ip))

/-- Go `getNetworkAttrs`; `str` stands for `providers.String`. -/
def getNetworkAttrs (str : IP → String) (network : NetworkInfo) : StringMap :=
  let b := network.Addresses.foldl classify {}
  let addresses : StringMap := []
  let addresses := setIndexed str "PACKET_IPV4_PUBLIC_" b.publicIPv4 0 addresses
  let addresses := setIndexed str "PACKET_IPV4_PRIVATE_" b.privateIPv4 0 addresses
  let addresses := setIndexed str "PACKET_IPV6_PUBLIC_" b.publicIPv6 0 addresses
  let addresses := setIndexed str "PACKET_IPV6_PRIVATE_" b.privateIPv6 0 addresses
  addresses

/-- The format string, without its `%d`, of the loop of `getNetworkAttrs` that
handles the bucket of a record of family 4 or 6. -/
def bucketName (addr : AddressInfo) : String :=
  if addr.Family = 4 then
    if addr.Public then "PACKET_IPV4_PUBLIC_" else "PACKET_IPV4_PRIVATE_"
  else
    if addr.Public then "PACKET_IPV6_PUBLIC_" else "PACKET_IPV6_PRIVATE_"

/-- The number of records before index `i` that fall in the bucket of the
record `addr`: same family and same `Public` flag. -/
def bucketIndex (addresses : List AddressInfo) (i : Nat) (addr : AddressInfo) : Nat :=
  (addresses.take i).countP (fun a => a.Family = addr.Family ∧ a.Public = addr.Public)

/-- The address list of the attribute-naming example: public 1.2.3.4, private
10.1.1.1, public 5.6.7.8, all of family 4. -/
def namingNetwork : NetworkInfo :=
  { Interfaces := []
    Addresses :=
      [ { Family := 4, Public := true, Address := IPv4 1 2 3 4,
          NetworkMask := IPv4Mask 255 255 255 254, Gateway := IPv4 1 2 3 5 },
        { Family := 4, Public := false, Address := IPv4 10 1 1 1,
          NetworkMask := IPv4Mask 255 255 255 254, Gateway := IPv4 10 1 1 0 },
        { Family := 4, Public := true, Address := IPv4 5 6 7 8,
          NetworkMask := IPv4Mask 255 255 255 254, Gateway := IPv4 5 6 7 9 } ] }


/-- The entries that one loop of lines 142-156 of `getNetworkAttrs` assigns, in
order: for the address at position `j` of the slice the key `pfx` followed by
the decimal text of `i + j` and the value `str` of the address. -/
def indexedEntries (str : IP → String) (pfx : String) : List IP → Nat → StringMap
  | [], _ => []
  | ip :: rest, i => (pfx ++ toString i, str ip) :: indexedEntries str pfx rest (i + 1)

/-- The test of one case of the `switch` of `getNetworkAttrs`: the record has
family `fam` and `Public` flag `pub`. -/
def inBucket (fam : Int) (pub : Bool) (addr : AddressInfo) : Bool :=
  decide (addr.Family = fam) && (addr.Public == pub)

/-- The addresses, in input order, of the records of family `fam` and `Public`
flag `pub`. -/
def bucketOf (fam : Int) (pub : Bool) (addresses : List AddressInfo) : List IP :=
  (addresses.filter (inBucket fam pub)).map (fun a => a.Address)

/-- The key that `getNetworkAttrs` gives to the record `addr` found at index `i`
of the address list: the name of its bucket and its index in the bucket. -/
def attrKey (addresses : List AddressInfo) (i : Nat) (addr : AddressInfo) : String :=
  bucketName addr ++ toString (bucketIndex addresses i addr)

/-- The sum of the lengths of the four slices. -/
def Buckets.total (b : Buckets) : Nat :=
  b.publicIPv4.length + b.privateIPv4.length + b.publicIPv6.length + b.privateIPv6.length

/-- The sample network with one more address record in front, of family 0. -/
def otherFamilyNetwork : NetworkInfo :=
  { sampleNetwork with
    Addresses :=
      { Family := 0, Public := true, Address := IPv4 9 9 9 9,
        NetworkMask := IPv4Mask 255 255 255 254, Gateway := IPv4 9 9 9 8 } ::
        sampleNetwork.Addresses }

end Packet

/-- Outcome of a Go call: it returns a value, or it stops with a run-time
panic. -/
inductive Outcome (α : Type) where
  | returned (value : α)
  | panicked (msg : String)

namespace Packet

open Net

/-- The `metadata.CurrentDevice` of package packngo/metadata, with the fields
that `FetchMetadata` reads. -/
structure CurrentDevice where
  Hostname : String
  SSHKeys : List String
  Network : NetworkInfo
  deriving DecidableEq

/-- The variable `data` of `FetchMetadata` (lines 39-43) after decoding: the
error string, the phone-home URL and the embedded `*metadata.CurrentDevice`,
which is nil (`none`) when the decoder found no field of the device in the
response. -/
structure ResponseData where
  Error : String
  PhoneHomeURL : String
  CurrentDevice : Option CurrentDevice
  deriving DecidableEq

/-- Modelled from the spec: `providers.Metadata` is declared in
`internal/providers`, which is not among the sources; the spec gives it an
attribute map, a hostname, a list of SSH keys and a list of network interfaces.
The defaults are Go's zero values, so `{}` is `providers.Metadata{}`. -/
structure Metadata where
  Attributes : StringMap := []
  Hostname : String := ""
  SshKeys : List String := []
  Network : Option (List NetworkInterface) := none
  deriving DecidableEq

/-- The error values that `FetchMetadata` returns: the error of the HTTP
request, the error of `json.Unmarshal`, `errors.New(data.Error)`, whose message
is its argument, and
`fmt.Errorf("failed to parse network config from metadata: %v", err)`. -/
inductive FetchError where
  | request (err : String)
  | unmarshal (err : String)
  | errorsNew (text : String)
  | failedToParseNetwork (err : ParseError)
  deriving DecidableEq

/-- The text of the run-time panic of Go on a nil pointer. -/
def nilDereference : String :=
  "runtime error: invalid memory address or nil pointer dereference"

/-- Go `FetchMetadata`.  `response` is the result of the HTTP request of lines
30-34 and `unmarshal` stands for `json.Unmarshal` into `data`; `parseMAC`
stands for `net.ParseMAC` and `str` for `providers.String`.  `data.Network`,
`data.Hostname` and `data.SSHKeys` are fields of the embedded pointer, and the
first of them that is read through a nil pointer, `data.Network` on line 53,
panics. -/
def FetchMetadata (parseMAC : String → Except String HardwareAddr) (str : IP → String)
    (response : Except String String) (unmarshal : String → Except String ResponseData) :
    Outcome (Metadata × Option FetchError) :=
  match response with
  | .error err => .returned ({}, some (.request err))
  | .ok body =>
    match unmarshal body with
    | .error err => .returned ({}, some (.unmarshal err))
    | .ok data =>
      if data.Error ≠ "" then
        .returned ({}, some (.errorsNew data.Error))
      else
        match data.CurrentDevice with
        | none => .panicked nilDereference
        | some device =>
          match parseNetwork parseMAC device.Network with
          | (_, some err) => .returned ({}, some (.failedToParseNetwork err))
          | (network, none) =>
            let attrs := getNetworkAttrs str device.Network
            let attrs := attrs.set "PACKET_HOSTNAME" device.Hostname
            let attrs := attrs.set "PACKET_PHONE_HOME_URL" data.PhoneHomeURL
            .returned
              ({ Attributes := attrs
                 Hostname := device.Hostname
                 SshKeys := device.SSHKeys
                 Network := network }, none)

/-- A decoded response with a device record: the sample network, a hostname and
one SSH key. -/
def sampleData : ResponseData :=
  { Error := ""
    PhoneHomeURL := "http://metadata.example/phone-home"
    CurrentDevice := some
      { Hostname := "node1", SSHKeys := ["ssh-rsa AAAA"], Network := sampleNetwork } }

/-- A decoded response that reports an error and whose network section has a
MAC string that does not parse. -/
def errorData : ResponseData :=
  { Error := "device not found"
    PhoneHomeURL := ""
    CurrentDevice := some { Hostname := "", SSHKeys := [], Network := badMACNetwork } }

/-- The decoded form of a response body that is the empty JSON object: no
error, no phone-home URL and no field of the device, so the embedded pointer is
nil. -/
def emptyData : ResponseData :=
  { Error := "", PhoneHomeURL := "", CurrentDevice := none }

/-- A network with one record of family 6 that is not public and whose address
is the IPv4-mapped address `::ffff:10.0.0.1`. -/
def mappedV6Network : NetworkInfo :=
  { Interfaces := [{ MAC := "01:23:45:67:89:ab" }]
    Addresses :=
      [ { Family := 6, Public := false, Address := IPv4 10 0 0 1,
          NetworkMask := List.replicate 16 0xff, Gateway := IPv4 10 0 0 0 } ] }

end Packet

namespace Strings

/-- Go `unicode.IsSpace`: the white space characters of Unicode. -/
def isSpace (c : Char) : Bool :=
  let r := c.toNat
  (0x09 ≤ r && r ≤ 0x0d) || r == 0x20 || r == 0x85 || r == 0xa0 || r == 0x1680 ||
    (0x2000 ≤ r && r ≤ 0x200a) || r == 0x2028 || r == 0x2029 || r == 0x202f ||
    r == 0x205f || r == 0x3000

/-- Go `strings.TrimSpace`: the string without its leading and trailing white
space. -/
def TrimSpace (s : List Char) : List Char :=
  ((s.dropWhile isSpace).reverse.dropWhile isSpace).reverse

/-- Go `strings.Split(s, sep)` for a separator of one character: the pieces of
`s` between the occurrences of `sep`; there is one piece more than there are
occurrences, and a piece may be empty. -/
def Split (sep : Char) : List Char → List (List Char)
  | [] => [[]]
  | c :: rest =>
    if c = sep then [] :: Split sep rest
    else
      match Split sep rest with
      | piece :: pieces => (c :: piece) :: pieces
      | [] => [[c]]

/-- The text before the first occurrence of `sep` and, when there is one, the
text after it. -/
def cut (sep : Char) : List Char → List Char × Option (List Char)
  | [] => ([], none)
  | c :: rest =>
    if c = sep then ([], some rest)
    else ((c :: (cut sep rest).1), (cut sep rest).2)

/-- Go `strings.SplitN(s, sep, 2)` for a separator of one character: `s` alone
when `sep` does not occur in it, otherwise the text before the first occurrence
and the text after it. -/
def SplitN2 (sep : Char) (s : List Char) : List (List Char) :=
  match cut sep s with
  | (before, none) => [before]
  | (before, some after) => [before, after]

end Strings

namespace Main

open Net Strings

/-- The constant `cmdlineOEMFlag` of `main.go`. -/
def cmdlineOEMFlag : String := "coreos.oem.id"

/-- Body of the loop of `parseCmdline` (lines 103-112) for one piece `arg` of
the command line; `oem` is the result so far, and `continue` leaves it as it
is. -/
def parseCmdlineStep (oem : String) (arg : List Char) : String :=
  let parts := SplitN2 '=' (TrimSpace arg)
  let key := parts.headD []
  if key ≠ cmdlineOEMFlag.data then oem
  else if parts.length = 2 then String.mk (parts.getD 1 [])
  else oem

/-- Go `parseCmdline`.  The bytes of the command line are read as text
(`string(cmdline)`); the embedding works on the characters of that text. -/
def parseCmdline (cmdline : String) : String :=
  (Split ' ' cmdline.data).foldl parseCmdlineStep ""

/-- The value of a token of the form `coreos.oem.id=value`, and nothing for any
other token. -/
def oemValue? (token : List Char) : Option String :=
  if (cmdlineOEMFlag.data ++ ['=']).isPrefixOf token then
    some (String.mk (token.drop (cmdlineOEMFlag.data.length + 1)))
  else none

/-- The white space characters of Unicode, one by one: U+0009 to U+000D, the
space, U+0085, U+00A0, U+1680, U+2000 to U+200A, U+2028, U+2029, U+202F, U+205F
and U+3000. -/
def whiteSpace : List Char :=
  [Char.ofNat 0x09, Char.ofNat 0x0a, Char.ofNat 0x0b, Char.ofNat 0x0c, Char.ofNat 0x0d,
   Char.ofNat 0x20, Char.ofNat 0x85, Char.ofNat 0xa0, Char.ofNat 0x1680,
   Char.ofNat 0x2000, Char.ofNat 0x2001, Char.ofNat 0x2002, Char.ofNat 0x2003,
   Char.ofNat 0x2004, Char.ofNat 0x2005, Char.ofNat 0x2006, Char.ofNat 0x2007,
   Char.ofNat 0x2008, Char.ofNat 0x2009, Char.ofNat 0x200a,
   Char.ofNat 0x2028, Char.ofNat 0x2029, Char.ofNat 0x202f, Char.ofNat 0x205f,
   Char.ofNat 0x3000]

/-- The result of `parseCmdline` in the words of its description: split the
command line at single spaces, trim the white space around each token, and take
the value of the last token of the form `coreos.oem.id=value`; the empty string
when there is none. -/
def lastOemValue (cmdline : String) : String :=
  ((((Split ' ' cmdline.data).map TrimSpace).filterMap oemValue?).getLast?).getD ""

end Main

namespace Main

open Net Strings

/-- Modelled from the spec: `config.Metadata` is declared in `src/config`,
which is not among the sources; the spec calls it the reduced `Metadata`, with
the public IPv4 address, the local IPv4 address and the hostname. -/
structure ConfigMetadata where
  PublicIPv4 : IP := []
  LocalIPv4 : IP := []
  Hostname : String := ""
  deriving DecidableEq

/-- The output file `*os.File` as the code uses it: the texts written so far,
one for each successful call of `fmt.Fprintf`, and the outcomes of the writes to
come, in order, `some err` for a write that fails with `err`; when `failures`
is exhausted every write succeeds.  A write that fails adds nothing. -/
structure File where
  written : List String := []
  failures : List (Option String) := []
  deriving DecidableEq

/-- The text of the file: the texts written, one after the other. -/
def File.content (out : File) : String := String.join out.written

/-- One call of `fmt.Fprintf(out, ...)` whose formatted text is `text`: the file
afterwards and the error returned. -/
def File.Fprintf (out : File) (text : String) : File × Option String :=
  match out.failures with
  | some err :: rest => ({ out with failures := rest }, some err)
  | none :: rest => ({ written := out.written ++ [text], failures := rest }, none)
  | [] => ({ out with written := out.written ++ [text] }, none)

/-- The `value interface{}` of `writeVariable`: an address or a string. -/
inductive Value where
  | ip (value : IP)
  | string (value : String)
  deriving DecidableEq

/-- The text that the verb `%s` of `fmt` gives for a value: a string as it is,
and an address, which has a `String` method, through `net.IP.String`. -/
def Value.format : Value → String
  | .ip value => IP.String value
  | .string value => value

/-- Go `writeVariable`: `fmt.Fprintf(out, "%s=%s\n", key, value)`. -/
def writeVariable (out : File) (key : String) (value : Value) : File × Option String :=
  out.Fprintf (key ++ "=" ++ value.format ++ "\n")

/-- Go `writeIPVariable`. -/
def writeIPVariable (out : File) (key : String) (value : IP) : File × Option String :=
  if value.length = 0 then (out, none)
  else writeVariable out key (.ip value)

/-- Go `writeStringVariable`. -/
def writeStringVariable (out : File) (key value : String) : File × Option String :=
  if value.length = 0 then (out, none)
  else writeVariable out key (.string value)

/-- Go `writeMetadata`: the file afterwards and the error returned. -/
def writeMetadata (out : File) (metadata : ConfigMetadata) : File × Option String :=
  match writeIPVariable out "COREOS_IPV4_PUBLIC" metadata.PublicIPv4 with
  | (out, some err) => (out, some err)
  | (out, none) =>
    match writeIPVariable out "COREOS_IPV4_LOCAL" metadata.LocalIPv4 with
    | (out, some err) => (out, some err)
    | (out, none) =>
      match writeStringVariable out "COREOS_HOSTNAME" metadata.Hostname with
      | (out, some err) => (out, some err)
      | (out, none) => (out, none)

/-- The lines that `writeMetadata` is to write for a metadata value: for each
non-empty field, in the order public address, local address, hostname, the key,
an equals sign, the text of the value and a newline. -/
def metadataLines (metadata : ConfigMetadata) : List String :=
  (if metadata.PublicIPv4 = [] then []
    else ["COREOS_IPV4_PUBLIC=" ++ IP.String metadata.PublicIPv4 ++ "\n"]) ++
  (if metadata.LocalIPv4 = [] then []
    else ["COREOS_IPV4_LOCAL=" ++ IP.String metadata.LocalIPv4 ++ "\n"]) ++
  (if metadata.Hostname = "" then []
    else ["COREOS_HOSTNAME=" ++ metadata.Hostname ++ "\n"])

/-- The number of non-empty fields of a metadata value. -/
def nonEmptyFields (metadata : ConfigMetadata) : Nat :=
  (if metadata.PublicIPv4 = [] then 0 else 1) + (if metadata.LocalIPv4 = [] then 0 else 1) +
    (if metadata.Hostname = "" then 0 else 1)

/-- What `main` reads from its surroundings: the result of
`ioutil.ReadFile(cmdlinePath)`, of `os.MkdirAll`, of `os.Create`, and of the
two provider fetchers `ec2.FetchMetadata` and `azure.FetchMetadata`, which are
outside the sources. -/
structure Env where
  cmdlineFile : Except String String
  mkdirAll : Option String
  create : Except String File
  ec2 : ConfigMetadata × Option String
  azure : ConfigMetadata × Option String

/-- The struct `flags` of `main` after `flag.Parse()`. -/
structure Flags where
  cmdline : Bool := false
  provider : String := ""
  output : String := ""
  version : Bool := false
  deriving DecidableEq

/-- Go `fetchMetadata`: the result of the fetcher of the provider, and the
panic of the `default` case for any other string. -/
def fetchMetadata (env : Env) (provider : String) : Outcome (ConfigMetadata × Option String) :=
  if provider = "ec2" then .returned env.ec2
  else if provider = "azure" then .returned env.azure
  else .panicked "bad provider"

/-- Lines 61-69 of `main`: the provider, taken from the kernel command line when
`-cmdline` is given and `-provider` is empty; `none` when the command line
cannot be read, in which case `main` exits with status 2. -/
def resolveProvider (flags : Flags) (env : Env) : Option String :=
  if flags.cmdline && flags.provider == "" then
    match env.cmdlineFile with
    | .error _ => none
    | .ok args => some (parseCmdline args)
  else some flags.provider

/-- The `switch` of lines 71-76 of `main`: the providers for which `main` does
not exit with status 2. -/
def validProvider (provider : String) : Bool :=
  provider = "ec2" || provider = "azure"

/-- How `main` ends: the exit status (0 for a return from `main`) and the
output file when it was created. -/
structure MainResult where
  status : Nat
  out : Option File
  deriving DecidableEq

/-- Go `main` after `flag.Parse()`. -/
def main (flags : Flags) (env : Env) : Outcome MainResult :=
  if flags.version then .returned { status := 0, out := none }
  else
    match resolveProvider flags env with
    | none => .returned { status := 2, out := none }
    | some provider =>
      if !validProvider provider then .returned { status := 2, out := none }
      else
        match env.mkdirAll with
        | some _ => .returned { status := 1, out := none }
        | none =>
          match env.create with
          | .error _ => .returned { status := 1, out := none }
          | .ok out =>
            match fetchMetadata env provider with
            | .panicked msg => .panicked msg
            | .returned (metadata, none) =>
              match writeMetadata out metadata with
              | (out, some _) => .returned { status := 1, out := some out }
              | (out, none) => .returned { status := 0, out := some out }
            | .returned (_, some _) => .returned { status := 1, out := some out }

/-- A metadata value with a public address, no local address and a hostname. -/
def sampleMetadata : ConfigMetadata :=
  { PublicIPv4 := IPv4 1 2 3 4, LocalIPv4 := [], Hostname := "node1" }

end Main

namespace Net

/-- Go `net.networkNumberAndMask`: the address and the mask of a network as
`net.IPNet` reads them, `none` for the result `(nil, nil)`.  The address is
taken in its 4-byte form when it has one; a 16-byte mask on a 4-byte address is
read through its last four bytes. -/
def networkNumberAndMask (n : IPNet) : Option (IP × IPMask) :=
  let ip? : Option IP :=
    match To4 n.IP with
    | some ip => some ip
    | none => if n.IP.length ≠ IPv6len then none else some n.IP
  match ip? with
  | none => none
  | some ip =>
    let m := n.Mask
    if m.length = IPv4len then
      if ip.length ≠ IPv4len then none else some (ip, m)
    else if m.length = IPv6len then
      if ip.length = IPv4len then some (ip, m.drop 12) else some (ip, m)
    else none

/-- Go `net.hexString`: the bytes in lower-case hexadecimal, two digits each. -/
def hexString (b : List Nat) : String :=
  String.join (b.map (fun v => String.mk [Nat.digitChar (v / 16), Nat.digitChar (v % 16)]))

/-- Go `(n *IPNet) String()`: the network number, a slash and the length of the
mask, or the mask in hexadecimal when it is not ones followed by zeros. -/
def IPNet.String (n : IPNet) : String :=
  match networkNumberAndMask n with
  | none => "<nil>"
  | some (nn, m) =>
    let l := simpleMaskLength m
    if l = -1 then
      IP.String nn ++ "/" ++ (if m.length = 0 then "<nil>" else hexString m)
    else IP.String nn ++ "/" ++ toString l.toNat

end Net

/-! # Theorems -/

namespace Net

/-! ## Length of a parsed hardware address -/

theorem length_macGroups3 (sep : Char) (n : Nat) (s : List Char) (hw : List Nat)
    (h : macGroups3 sep n s = some hw) : hw.length = n := by
  induction n generalizing s hw with
  | zero =>
    simp only [macGroups3, Option.some.injEq] at h
    subst h
    rfl
  | succ n ih =>
    simp only [macGroups3] at h
    cases hx : xtoi2 s sep with
    | none => simp [hx] at h
    | some b =>
      simp only [hx, Option.map_eq_some'] at h
      obtain ⟨tl, htl, rfl⟩ := h
      simp [ih _ _ htl]

theorem length_macGroups5 (sep : Char) (n : Nat) (s : List Char) (hw : List Nat)
    (h : macGroups5 sep n s = some hw) : hw.length = 2 * n := by
  induction n generalizing s hw with
  | zero =>
    simp only [macGroups5, Option.some.injEq] at h
    subst h
    rfl
  | succ n ih =>
    simp only [macGroups5] at h
    split at h
    · simp only [Option.map_eq_some'] at h
      obtain ⟨tl, htl, rfl⟩ := h
      simp only [List.length_cons, ih _ _ htl]
      omega
    · cases h

/-- A hardware address returned by `ParseMAC` has 6, 8 or 20 bytes; in
particular it is not empty. -/
theorem length_ParseMAC (str : String) (hw : HardwareAddr) (h : ParseMAC str = .ok hw) :
    hw.length = 6 ∨ hw.length = 8 ∨ hw.length = 20 := by
  unfold ParseMAC at h
  simp only at h
  split_ifs at h with h1 h2 h3 h4 h5 h6 h7
  · split at h
    · rename_i hw0 hg
      cases h
      have := length_macGroups3 _ _ _ _ hg
      omega
    · cases h
  · split at h
    · rename_i hw0 hg
      cases h
      have := length_macGroups5 _ _ _ _ hg
      omega
    · cases h

end Net

namespace Packet

open Net

/-! ## The first loop of `parseNetwork` -/

theorem parseInterfaces_ok_iff (pm : String → Except String HardwareAddr)
    (l : List InterfaceInfo) (acc r : List NetworkInterface) :
    parseInterfaces pm l acc = .ok r ↔
      ∃ macs, List.Forall₂ (fun i m => pm i.MAC = .ok m) l macs ∧
        r = acc ++ macs.map (fun m => ({ HardwareAddress := some m } : NetworkInterface)) := by
  induction l generalizing acc with
  | nil =>
    simp only [parseInterfaces, Except.ok.injEq, List.forall₂_nil_left_iff, exists_eq_left,
      List.map_nil, List.append_nil]
    exact eq_comm
  | cons i rest ih =>
    simp only [parseInterfaces]
    cases h : pm i.MAC with
    | error e =>
      simp only [List.forall₂_cons_left_iff, false_iff, not_exists, not_and, reduceCtorEq]
      rintro _ ⟨m, macs, hm, -, -⟩
      rw [h] at hm
      cases hm
    | ok mac =>
      simp only [ih, List.forall₂_cons_left_iff, Except.ok.injEq]
      constructor
      · rintro ⟨macs, hm, rfl⟩
        exact ⟨mac :: macs, ⟨mac, macs, h, hm, rfl⟩, by simp⟩
      · rintro ⟨_, ⟨m, macs, hm0, hm, rfl⟩, rfl⟩
        rw [h] at hm0
        cases hm0
        exact ⟨macs, hm, by simp⟩

theorem parseInterfaces_error_iff (pm : String → Except String HardwareAddr)
    (l : List InterfaceInfo) (acc : List NetworkInterface) :
    (∃ e, parseInterfaces pm l acc = .error e) ↔
      ∃ iface ∈ l, ∃ cause, pm iface.MAC = .error cause := by
  induction l generalizing acc with
  | nil => simp [parseInterfaces]
  | cons i rest ih =>
    simp only [parseInterfaces]
    cases h : pm i.MAC with
    | error e => simp [h]
    | ok mac => simp [ih, h]


/-! ## The second loop of `parseNetwork` -/

theorem addAddress_eq (iface : NetworkInterface) (addr : AddressInfo) :
    addAddress iface addr =
      if isKept addr then appendAddress iface addr (destinationOf addr) else iface := by
  unfold addAddress isKept destinationOf
  cases hp : addr.Public <;> cases h4 : To4 addr.Address <;> simp

theorem foldl_addAddress (addresses : List AddressInfo) (iface : NetworkInterface) :
    addresses.foldl addAddress iface =
      { iface with
        IPAddresses := iface.IPAddresses ++
          (addresses.filter isKept).map (fun a => { IP := a.Address, Mask := a.NetworkMask })
        Routes := iface.Routes ++
          (addresses.filter isKept).map
            (fun a => { Destination := destinationOf a, Gateway := a.Gateway }) } := by
  induction addresses generalizing iface with
  | nil => simp
  | cons a rest ih =>
    rw [List.foldl_cons, ih, addAddress_eq]
    cases hk : isKept a <;> simp [List.filter_cons, hk, appendAddress]

theorem aggregateInterface_eq (addresses : List AddressInfo) :
    aggregateInterface addresses =
      { Priority := 5
        IPAddresses :=
          (addresses.filter isKept).map (fun a => { IP := a.Address, Mask := a.NetworkMask })
        Routes :=
          (addresses.filter isKept).map
            (fun a => { Destination := destinationOf a, Gateway := a.Gateway }) } := by
  unfold aggregateInterface
  rw [foldl_addAddress]
  simp

theorem filter_map_index {α β : Type} (p : α → Bool) (f : α → β) (l : List α)
    (i : Nat) (h : i < l.length) (hp : p (l.get ⟨i, h⟩) = true) :
    ((l.filter p).map f)[((l.take i).filter p).length]? = some (f (l.get ⟨i, h⟩)) := by
  have hsplit : l = l.take i ++ l.get ⟨i, h⟩ :: l.drop (i + 1) := by
    simp
  conv_lhs => rw [hsplit]
  rw [List.filter_append, List.map_append, List.filter_cons, if_pos hp, List.map_cons]
  rw [List.getElem?_append_right (by simp)]
  simp

theorem filter_map_keptIndex {β : Type} (f : AddressInfo → β) (addresses : List AddressInfo)
    (i : Nat) (h : i < addresses.length) (hk : isKept (addresses.get ⟨i, h⟩) = true) :
    ((addresses.filter isKept).map f)[keptIndex addresses i]? =
      some (f (addresses.get ⟨i, h⟩)) :=
  filter_map_index isKept f addresses i h hk

theorem countP_skipped (addresses : List AddressInfo) :
    (addresses.filter isKept).length =
      addresses.length -
        addresses.countP (fun a => !a.Public && (To4 a.Address).isNone) := by
  have h := List.length_eq_countP_add_countP (fun a => isKept a) addresses
  have h2 : List.countP (fun a => decide ¬(isKept a = true)) addresses =
      addresses.countP (fun a => !a.Public && (To4 a.Address).isNone) := by
    congr 1
    funext a
    unfold isKept
    cases a.Public <;> cases To4 a.Address <;> simp
  rw [h2, List.countP_eq_length_filter] at h
  have h3 : (List.filter (fun a => isKept a) addresses) = addresses.filter isKept := rfl
  rw [h3] at h
  omega


/-! ## `parseNetwork` as a whole -/

theorem parseNetwork_of_valid (pm : String → Except String HardwareAddr) (network : NetworkInfo)
    (hvalid : ∀ iface ∈ network.Interfaces, ∃ mac, pm iface.MAC = .ok mac) :
    ∃ macs, List.Forall₂ (fun i m => pm i.MAC = .ok m) network.Interfaces macs ∧
      parseNetwork pm network =
        (some (macs.map (fun m => ({ HardwareAddress := some m } : NetworkInterface)) ++
          [aggregateInterface network.Addresses]), none) := by
  unfold parseNetwork
  cases h : parseInterfaces pm network.Interfaces [] with
  | error e =>
    obtain ⟨iface, hmem, cause, hc⟩ :=
      (parseInterfaces_error_iff pm network.Interfaces []).mp ⟨e, h⟩
    obtain ⟨mac, hm⟩ := hvalid iface hmem
    rw [hm] at hc
    cases hc
  | ok r =>
    obtain ⟨macs, hm, rfl⟩ := (parseInterfaces_ok_iff pm network.Interfaces [] r).mp h
    exact ⟨macs, hm, by simp⟩

theorem parseNetwork_of_no_error (pm : String → Except String HardwareAddr)
    (network : NetworkInfo) (hok : (parseNetwork pm network).2 = none) :
    ∀ iface ∈ network.Interfaces, ∃ mac, pm iface.MAC = .ok mac := by
  intro iface hmem
  cases hm : pm iface.MAC with
  | ok mac => exact ⟨mac, rfl⟩
  | error cause =>
    obtain ⟨e, he⟩ :=
      (parseInterfaces_error_iff pm network.Interfaces []).mpr ⟨iface, hmem, cause, hm⟩
    simp [parseNetwork, he] at hok

theorem sampleNetwork_valid :
    ∀ iface ∈ sampleNetwork.Interfaces, ∃ mac, ParseMAC iface.MAC = .ok mac := by
  intro iface hmem
  simp only [sampleNetwork, List.mem_cons, List.mem_singleton, List.not_mem_nil, or_false] at hmem
  rcases hmem with rfl | rfl
  · exact ⟨_, rfl⟩
  · exact ⟨_, rfl⟩

/-- C1: when every MAC string of the interface records parses, `parseNetwork`
succeeds with a list of one more entry than there are interface records, and
entry `i` of the first ones carries the parsed MAC of interface record `i`. -/
theorem parseNetwork_hardware_interfaces (pm : String → Except String HardwareAddr)
    (network : NetworkInfo)
    (hvalid : ∀ iface ∈ network.Interfaces, ∃ mac, pm iface.MAC = .ok mac) :
    ∃ ifaces, parseNetwork pm network = (some ifaces, none) ∧
      ifaces.length = network.Interfaces.length + 1 ∧
      ∀ (i : Nat) (h : i < network.Interfaces.length),
        ∃ mac ni, pm (network.Interfaces.get ⟨i, h⟩).MAC = .ok mac ∧
          ifaces[i]? = some ni ∧ ni.HardwareAddress = some mac := by
  obtain ⟨macs, hm, heq⟩ := parseNetwork_of_valid pm network hvalid
  have hlen := hm.length_eq
  refine ⟨_, heq, by simp [hlen], ?_⟩
  intro i h
  have hi : i < macs.length := hlen ▸ h
  refine ⟨macs.get ⟨i, hi⟩, { HardwareAddress := some (macs.get ⟨i, hi⟩) }, ?_, ?_, rfl⟩
  · exact (List.forall₂_iff_get.mp hm).2 i h hi
  · rw [List.getElem?_append_left (by simpa using hi)]
    simp [List.getElem?_eq_getElem hi]

/-- Witness of C1 on the sample network. -/
theorem parseNetwork_hardware_interfaces_witness :
    (∀ iface ∈ sampleNetwork.Interfaces, ∃ mac, ParseMAC iface.MAC = .ok mac) ∧
    ∃ ifaces, parseNetwork ParseMAC sampleNetwork = (some ifaces, none) ∧
      ifaces.length = sampleNetwork.Interfaces.length + 1 ∧
      ∀ (i : Nat) (h : i < sampleNetwork.Interfaces.length),
        ∃ mac ni, ParseMAC (sampleNetwork.Interfaces.get ⟨i, h⟩).MAC = .ok mac ∧
          ifaces[i]? = some ni ∧ ni.HardwareAddress = some mac :=
  ⟨sampleNetwork_valid, parseNetwork_hardware_interfaces ParseMAC sampleNetwork sampleNetwork_valid⟩

/-- C2: `parseNetwork` returns an error exactly when the MAC string of some
interface record fails to parse, and whenever it returns an error the returned
list is nil, whatever the address records and the earlier MACs are. -/
theorem parseNetwork_error_iff (pm : String → Except String HardwareAddr)
    (network : NetworkInfo) :
    ((parseNetwork pm network).2 ≠ none ↔
      ∃ iface ∈ network.Interfaces, ∃ cause, pm iface.MAC = .error cause) ∧
    ((parseNetwork pm network).2 ≠ none → (parseNetwork pm network).1 = none) := by
  have key := parseInterfaces_error_iff pm network.Interfaces []
  unfold parseNetwork
  cases h : parseInterfaces pm network.Interfaces [] with
  | error e =>
    refine ⟨?_, fun _ => rfl⟩
    simp only [ne_eq, reduceCtorEq, not_false_eq_true, true_iff]
    exact key.mp ⟨e, h⟩
  | ok r =>
    refine ⟨?_, fun hne => absurd rfl hne⟩
    simp only [ne_eq, not_true_eq_false, false_iff]
    intro hex
    obtain ⟨e, he⟩ := key.mpr hex
    rw [h] at he
    cases he

/-- Witness of C2: on the network whose second MAC string is `not-a-mac` an
error is returned and the list is nil, although the first MAC string parses. -/
theorem parseNetwork_error_iff_witness :
    (parseNetwork ParseMAC badMACNetwork).2 ≠ none ∧
    (parseNetwork ParseMAC badMACNetwork).1 = none ∧
    ∃ iface ∈ badMACNetwork.Interfaces, ∃ cause, ParseMAC iface.MAC = .error cause :=
  have hne : (parseNetwork ParseMAC badMACNetwork).2 ≠ none := by decide
  ⟨hne, (parseNetwork_error_iff ParseMAC badMACNetwork).2 hne,
    (parseNetwork_error_iff ParseMAC badMACNetwork).1.mp hne⟩


theorem getLast?_append_singleton {α : Type} (l : List α) (a : α) :
    (l ++ [a]).getLast? = some a := by
  simp

/-- C3: with valid interface records, the aggregate interface returned by
`parseNetwork` has as many addresses as routes, namely the number of address
records less the number of records that are not public and not representable as
IPv4; its addresses and the gateways of its routes are those of the other
records, in order, so the records left out contribute to neither list. -/
theorem parseNetwork_aggregate_lengths (pm : String → Except String HardwareAddr)
    (network : NetworkInfo)
    (hvalid : ∀ iface ∈ network.Interfaces, ∃ mac, pm iface.MAC = .ok mac) :
    ∃ ifaces agg, parseNetwork pm network = (some ifaces, none) ∧
      ifaces.getLast? = some agg ∧
      agg.IPAddresses.length = agg.Routes.length ∧
      agg.Routes.length = network.Addresses.length -
        network.Addresses.countP (fun a => !a.Public && (To4 a.Address).isNone) ∧
      agg.IPAddresses =
        (network.Addresses.filter (fun a => !(!a.Public && (To4 a.Address).isNone))).map
          (fun a => { IP := a.Address, Mask := a.NetworkMask }) ∧
      agg.Routes.map (fun r => r.Gateway) =
        (network.Addresses.filter (fun a => !(!a.Public && (To4 a.Address).isNone))).map
          (fun a => a.Gateway) := by
  obtain ⟨macs, -, heq⟩ := parseNetwork_of_valid pm network hvalid
  have hfilter : (fun a : AddressInfo => !(!a.Public && (To4 a.Address).isNone)) = isKept := by
    funext a
    unfold isKept
    cases a.Public <;> cases To4 a.Address <;> simp
  refine ⟨_, _, heq, getLast?_append_singleton _ _, ?_, ?_, ?_, ?_⟩
  · simp [aggregateInterface_eq]
  · rw [aggregateInterface_eq, ← countP_skipped]
    simp
  · rw [aggregateInterface_eq, hfilter]
  · rw [aggregateInterface_eq, hfilter]
    simp

/-- Witness of C3 on the sample network, which has one private IPv6 record
among its four address records. -/
theorem parseNetwork_aggregate_lengths_witness :
    sampleNetwork.Addresses.length -
        sampleNetwork.Addresses.countP (fun a => !a.Public && (To4 a.Address).isNone) = 3 ∧
    ∃ ifaces agg, parseNetwork ParseMAC sampleNetwork = (some ifaces, none) ∧
      ifaces.getLast? = some agg ∧
      agg.IPAddresses.length = agg.Routes.length ∧
      agg.Routes.length = sampleNetwork.Addresses.length -
        sampleNetwork.Addresses.countP (fun a => !a.Public && (To4 a.Address).isNone) ∧
      agg.IPAddresses =
        (sampleNetwork.Addresses.filter (fun a => !(!a.Public && (To4 a.Address).isNone))).map
          (fun a => { IP := a.Address, Mask := a.NetworkMask }) ∧
      agg.Routes.map (fun r => r.Gateway) =
        (sampleNetwork.Addresses.filter (fun a => !(!a.Public && (To4 a.Address).isNone))).map
          (fun a => a.Gateway) :=
  ⟨by decide, parseNetwork_aggregate_lengths ParseMAC sampleNetwork sampleNetwork_valid⟩

theorem parseNetwork_route_of_kept (pm : String → Except String HardwareAddr)
    (network : NetworkInfo)
    (hvalid : ∀ iface ∈ network.Interfaces, ∃ mac, pm iface.MAC = .ok mac)
    (i : Nat) (h : i < network.Addresses.length)
    (hk : isKept (network.Addresses.get ⟨i, h⟩) = true) :
    ∃ ifaces agg, parseNetwork pm network = (some ifaces, none) ∧
      ifaces.getLast? = some agg ∧
      agg.IPAddresses[keptIndex network.Addresses i]? =
        some { IP := (network.Addresses.get ⟨i, h⟩).Address,
               Mask := (network.Addresses.get ⟨i, h⟩).NetworkMask } ∧
      agg.Routes[keptIndex network.Addresses i]? =
        some { Destination := destinationOf (network.Addresses.get ⟨i, h⟩),
               Gateway := (network.Addresses.get ⟨i, h⟩).Gateway } := by
  obtain ⟨macs, -, heq⟩ := parseNetwork_of_valid pm network hvalid
  refine ⟨_, _, heq, getLast?_append_singleton _ _, ?_, ?_⟩
  · rw [aggregateInterface_eq]
    exact filter_map_keptIndex _ network.Addresses i h hk
  · rw [aggregateInterface_eq]
    exact filter_map_keptIndex _ network.Addresses i h hk

theorem destinationOf_private (addr : AddressInfo) (h : addr.Public = false) :
    destinationOf addr = privateDestination := by
  simp [destinationOf, h]

theorem destinationOf_public (addr : AddressInfo) (h : addr.Public = true) :
    (destinationOf addr).IP = List.replicate (if To4 addr.Address ≠ none then 4 else 16) 0 ∧
    (destinationOf addr).Mask = List.replicate (if To4 addr.Address ≠ none then 4 else 16) 0 := by
  cases h4 : To4 addr.Address <;> simp [destinationOf, h, h4, makeBytes]

/-- C4: for every address record that is not public and is representable as
IPv4, the route that `parseNetwork` appends for it has the destination
`privateDestination`, one constant that depends on neither the address, the
mask nor the gateway of the record; the gateway of the route is the record's. -/
theorem parseNetwork_private_ipv4_destination (pm : String → Except String HardwareAddr)
    (network : NetworkInfo)
    (hvalid : ∀ iface ∈ network.Interfaces, ∃ mac, pm iface.MAC = .ok mac)
    (i : Nat) (h : i < network.Addresses.length)
    (hprivate : (network.Addresses.get ⟨i, h⟩).Public = false)
    (hv4 : To4 (network.Addresses.get ⟨i, h⟩).Address ≠ none) :
    ∃ ifaces agg route, parseNetwork pm network = (some ifaces, none) ∧
      ifaces.getLast? = some agg ∧
      agg.Routes[keptIndex network.Addresses i]? = some route ∧
      route.Destination = privateDestination ∧
      route.Gateway = (network.Addresses.get ⟨i, h⟩).Gateway := by
  have hk : isKept (network.Addresses.get ⟨i, h⟩) = true := by
    unfold isKept
    cases h4 : To4 (network.Addresses.get ⟨i, h⟩).Address with
    | none => exact absurd h4 hv4
    | some v => simp
  obtain ⟨ifaces, agg, heq, hlast, -, hroute⟩ := parseNetwork_route_of_kept pm network hvalid i h hk
  exact ⟨ifaces, agg, _, heq, hlast, hroute, destinationOf_private _ hprivate, rfl⟩

/-- Witness of C4: record 1 of the sample network is a private IPv4 record. -/
theorem parseNetwork_private_ipv4_destination_witness :
    ∃ ifaces agg route, parseNetwork ParseMAC sampleNetwork = (some ifaces, none) ∧
      ifaces.getLast? = some agg ∧
      agg.Routes[keptIndex sampleNetwork.Addresses 1]? = some route ∧
      route.Destination = privateDestination ∧
      route.Gateway = (sampleNetwork.Addresses.get ⟨1, by decide⟩).Gateway :=
  parseNetwork_private_ipv4_destination ParseMAC sampleNetwork sampleNetwork_valid 1
    (by decide) (by decide) (by decide)

/-- C6: for every public address record, the route that `parseNetwork` appends
for it has a destination whose IP and mask are both all-zero, of length 4 when
the address is representable as IPv4 and of length 16 otherwise, whatever the
mask and the gateway of the record. -/
theorem parseNetwork_public_destination (pm : String → Except String HardwareAddr)
    (network : NetworkInfo)
    (hvalid : ∀ iface ∈ network.Interfaces, ∃ mac, pm iface.MAC = .ok mac)
    (i : Nat) (h : i < network.Addresses.length)
    (hpublic : (network.Addresses.get ⟨i, h⟩).Public = true) :
    ∃ ifaces agg route, parseNetwork pm network = (some ifaces, none) ∧
      ifaces.getLast? = some agg ∧
      agg.Routes[keptIndex network.Addresses i]? = some route ∧
      route.Destination.IP = List.replicate
        (if To4 (network.Addresses.get ⟨i, h⟩).Address ≠ none then 4 else 16) 0 ∧
      route.Destination.Mask = List.replicate
        (if To4 (network.Addresses.get ⟨i, h⟩).Address ≠ none then 4 else 16) 0 := by
  have hk : isKept (network.Addresses.get ⟨i, h⟩) = true := by
    unfold isKept
    rw [hpublic]
    rfl
  obtain ⟨ifaces, agg, heq, hlast, -, hroute⟩ := parseNetwork_route_of_kept pm network hvalid i h hk
  exact ⟨ifaces, agg, _, heq, hlast, hroute, (destinationOf_public _ hpublic).1,
    (destinationOf_public _ hpublic).2⟩

/-- Witness of C6: record 3 of the sample network is a public IPv6 record, the
third of the records that are kept. -/
theorem parseNetwork_public_destination_witness :
    keptIndex sampleNetwork.Addresses 3 = 2 ∧
    ∃ ifaces agg route, parseNetwork ParseMAC sampleNetwork = (some ifaces, none) ∧
      ifaces.getLast? = some agg ∧
      agg.Routes[keptIndex sampleNetwork.Addresses 3]? = some route ∧
      route.Destination.IP = List.replicate
        (if To4 (sampleNetwork.Addresses.get ⟨3, by decide⟩).Address ≠ none then 4 else 16) 0 ∧
      route.Destination.Mask = List.replicate
        (if To4 (sampleNetwork.Addresses.get ⟨3, by decide⟩).Address ≠ none then 4 else 16) 0 :=
  ⟨by decide, parseNetwork_public_destination ParseMAC sampleNetwork sampleNetwork_valid 3
    (by decide) (by decide)⟩


/-- C7: whenever `parseNetwork` returns no error, it returns a list of one more
entry than there are interface records; the last entry has priority 5 and no
hardware address, and empty address and route lists when there is no address
record; every entry before the last has the hardware address parsed from an
interface record, priority 0, and empty address and route lists. -/
theorem parseNetwork_aggregate_last (pm : String → Except String HardwareAddr)
    (network : NetworkInfo) (hok : (parseNetwork pm network).2 = none) :
    ∃ ifaces agg, (parseNetwork pm network).1 = some ifaces ∧
      ifaces.length = network.Interfaces.length + 1 ∧
      ifaces.getLast? = some agg ∧
      agg.Priority = 5 ∧ agg.HardwareAddress = none ∧
      (network.Addresses = [] → agg.IPAddresses = [] ∧ agg.Routes = []) ∧
      ∀ j, j + 1 < ifaces.length →
        ∃ ni mac, ifaces[j]? = some ni ∧
          ni.HardwareAddress = some mac ∧
          (∃ iface ∈ network.Interfaces, pm iface.MAC = .ok mac) ∧
          ni.Priority = 0 ∧ ni.IPAddresses = [] ∧ ni.Routes = [] := by
  obtain ⟨macs, hm, heq⟩ :=
    parseNetwork_of_valid pm network (parseNetwork_of_no_error pm network hok)
  have hlen := hm.length_eq
  refine ⟨_, aggregateInterface network.Addresses, by rw [heq], by simp [hlen],
    getLast?_append_singleton _ _, ?_, ?_, ?_, ?_⟩
  · simp [aggregateInterface_eq]
  · simp [aggregateInterface_eq]
  · intro hnil
    simp [aggregateInterface_eq, hnil]
  · intro j hj
    have hjm : j < macs.length := by simpa using hj
    have hji : j < network.Interfaces.length := hlen ▸ hjm
    refine ⟨{ HardwareAddress := some (macs.get ⟨j, hjm⟩) }, macs.get ⟨j, hjm⟩, ?_, rfl,
      ⟨network.Interfaces.get ⟨j, hji⟩, List.get_mem _ _ _,
        (List.forall₂_iff_get.mp hm).2 j hji hjm⟩, rfl, rfl, rfl⟩
    rw [List.getElem?_append_left (by simpa using hjm)]
    simp [List.getElem?_eq_getElem hjm]

/-- Witness of C7 on the sample network without address records: the list has
three entries and the last is the aggregate interface with empty lists. -/
theorem parseNetwork_aggregate_last_witness :
    (parseNetwork ParseMAC noAddressNetwork).2 = none ∧
    ∃ ifaces agg, (parseNetwork ParseMAC noAddressNetwork).1 = some ifaces ∧
      ifaces.length = noAddressNetwork.Interfaces.length + 1 ∧
      ifaces.getLast? = some agg ∧
      agg.Priority = 5 ∧ agg.HardwareAddress = none ∧
      (noAddressNetwork.Addresses = [] → agg.IPAddresses = [] ∧ agg.Routes = []) ∧
      ∀ j, j + 1 < ifaces.length →
        ∃ ni mac, ifaces[j]? = some ni ∧
          ni.HardwareAddress = some mac ∧
          (∃ iface ∈ noAddressNetwork.Interfaces, ParseMAC iface.MAC = .ok mac) ∧
          ni.Priority = 0 ∧ ni.IPAddresses = [] ∧ ni.Routes = [] :=
  ⟨by decide, parseNetwork_aggregate_last ParseMAC noAddressNetwork (by decide)⟩


/-! ## Decimal text of an index -/

theorem digitChar_toNat (d : Nat) (h : d < 10) : (Nat.digitChar d).toNat - 48 = d := by
  interval_cases d <;> rfl

theorem toDigitsCore_decode (fuel n : Nat) (ds : List Char) (h : n < fuel) :
    (Nat.toDigitsCore 10 fuel n ds).foldl (fun acc c => acc * 10 + (c.toNat - 48)) 0 =
      ds.foldl (fun acc c => acc * 10 + (c.toNat - 48)) n := by
  induction fuel generalizing n ds with
  | zero => omega
  | succ fuel ih =>
    unfold Nat.toDigitsCore
    by_cases h0 : n / 10 = 0
    · simp only [h0, if_true, List.foldl_cons, Nat.zero_mul, Nat.zero_add]
      rw [digitChar_toNat _ (Nat.mod_lt _ (by decide))]
      have : n % 10 = n := Nat.mod_eq_of_lt (by omega)
      rw [this]
    · simp only [h0, if_false]
      rw [ih (n / 10) _ (by omega), List.foldl_cons,
        digitChar_toNat _ (Nat.mod_lt _ (by decide))]
      have : n / 10 * 10 + n % 10 = n := by omega
      rw [this]

theorem toString_nat_injective (i j : Nat) (h : toString i = toString j) : i = j := by
  have hd : Nat.toDigits 10 i = Nat.toDigits 10 j := by
    have := congrArg String.data h
    simpa [toString, Nat.repr] using this
  have hi := toDigitsCore_decode (i + 1) i [] (by omega)
  have hj := toDigitsCore_decode (j + 1) j [] (by omega)
  unfold Nat.toDigits at hd
  rw [hd] at hi
  rw [hi] at hj
  simpa using hj

/-! ## Keys of the attribute map -/

theorem key_injective (pfx : String) (i j : Nat)
    (h : pfx ++ toString i = pfx ++ toString j) : i = j := by
  apply toString_nat_injective
  have := congrArg String.data h
  rw [String.data_append, String.data_append] at this
  exact String.ext (List.append_cancel_left this)

theorem key_ne_of_char (p q a b : String) (n : Nat) (hp : n < p.data.length)
    (hq : n < q.data.length) (hne : p.data[n]? ≠ q.data[n]?) : p ++ a ≠ q ++ b := by
  intro h
  have h1 := congrArg String.data h
  rw [String.data_append, String.data_append] at h1
  have h2 := congrArg (fun l => l[n]?) h1
  simp only [List.getElem?_append_left hp, List.getElem?_append_left hq] at h2
  exact hne h2

/-! ## Assignment to a map -/

theorem set_fresh (m : StringMap) (k v : String) (h : k ∉ m.keys) :
    m.set k v = m ++ [(k, v)] := by
  induction m with
  | nil => rfl
  | cons e rest ih =>
    obtain ⟨k', v'⟩ := e
    simp only [StringMap.keys, List.map_cons, List.mem_cons, not_or] at h
    have hne : k' ≠ k := fun hk => h.1 hk.symm
    simp only [StringMap.set, if_neg hne, List.cons_append]
    rw [ih h.2]

theorem keys_indexedEntries (str : IP → String) (pfx : String) (ips : List IP) (i : Nat)
    (k : String) (h : k ∈ StringMap.keys (indexedEntries str pfx ips i)) :
    ∃ j, i ≤ j ∧ j < i + ips.length ∧ k = pfx ++ toString j := by
  induction ips generalizing i with
  | nil => simp [indexedEntries, StringMap.keys] at h
  | cons ip rest ih =>
    simp only [indexedEntries, StringMap.keys, List.map_cons, List.mem_cons] at h
    rcases h with rfl | h
    · exact ⟨i, le_refl _, by simp, rfl⟩
    · obtain ⟨j, h1, h2, h3⟩ := ih (i + 1) h
      exact ⟨j, by omega, by simp only [List.length_cons]; omega, h3⟩

theorem setIndexed_fresh (str : IP → String) (pfx : String) (ips : List IP) (i : Nat)
    (m : StringMap) (h : ∀ j, i ≤ j → pfx ++ toString j ∉ m.keys) :
    setIndexed str pfx ips i m = m ++ indexedEntries str pfx ips i := by
  induction ips generalizing i m with
  | nil => simp [setIndexed, indexedEntries]
  | cons ip rest ih =>
    simp only [setIndexed, indexedEntries]
    rw [set_fresh m _ _ (h i (le_refl _)), ih]
    · simp
    · intro j hj hmem
      simp only [StringMap.keys, List.map_append, List.map_cons, List.map_nil, List.mem_append,
        List.mem_singleton] at hmem
      rcases hmem with hmem | hmem
      · exact h j (by omega) hmem
      · have := key_injective pfx j i hmem
        omega

theorem nodup_keys_indexedEntries (str : IP → String) (pfx : String) (ips : List IP) (i : Nat) :
    (StringMap.keys (indexedEntries str pfx ips i)).Nodup := by
  induction ips generalizing i with
  | nil => simp [indexedEntries, StringMap.keys]
  | cons ip rest ih =>
    simp only [indexedEntries, StringMap.keys, List.map_cons, List.nodup_cons]
    refine ⟨?_, ih (i + 1)⟩
    intro hmem
    obtain ⟨j, h1, -, h3⟩ := keys_indexedEntries str pfx rest (i + 1) _ hmem
    have := key_injective pfx i j h3
    omega

theorem length_indexedEntries (str : IP → String) (pfx : String) (ips : List IP) (i : Nat) :
    (indexedEntries str pfx ips i).length = ips.length := by
  induction ips generalizing i with
  | nil => rfl
  | cons ip rest ih => simp [indexedEntries, ih]

theorem getElem?_indexedEntries (str : IP → String) (pfx : String) (ips : List IP) (i k : Nat)
    (ip : IP) (h : ips[k]? = some ip) :
    (pfx ++ toString (i + k), str ip) ∈ indexedEntries str pfx ips i := by
  induction ips generalizing i k with
  | nil => simp at h
  | cons a rest ih =>
    cases k with
    | zero =>
      simp only [List.getElem?_cons_zero, Option.some.injEq] at h
      subst h
      simp [indexedEntries]
    | succ k =>
      simp only [List.getElem?_cons_succ] at h
      have := ih (i + 1) k h
      simp only [indexedEntries, List.mem_cons]
      right
      have e : i + 1 + k = i + (k + 1) := by omega
      rwa [e] at this

theorem lookup_of_mem_nodup (m : StringMap) (k v : String) (hmem : (k, v) ∈ m)
    (hnd : m.keys.Nodup) : m.get? k = some v := by
  induction m with
  | nil => simp at hmem
  | cons e rest ih =>
    obtain ⟨k', v'⟩ := e
    simp only [StringMap.keys, List.map_cons, List.nodup_cons] at hnd
    simp only [List.mem_cons, Prod.mk.injEq] at hmem
    unfold StringMap.get?
    rcases hmem with ⟨rfl, rfl⟩ | hmem
    · simp [List.lookup]
    · have hne : k ≠ k' := by
        rintro rfl
        exact hnd.1 (List.mem_map_of_mem (fun e => e.1) hmem)
      have hb : (k == k') = false := by simpa using hne
      simp only [List.lookup, hb]
      exact ih hmem hnd.2


/-! ## The two phases of `getNetworkAttrs` -/

theorem classify_eq (b : Buckets) (a : AddressInfo) :
    classify b a =
      { publicIPv4 := b.publicIPv4 ++ bucketOf 4 true [a]
        privateIPv4 := b.privateIPv4 ++ bucketOf 4 false [a]
        publicIPv6 := b.publicIPv6 ++ bucketOf 6 true [a]
        privateIPv6 := b.privateIPv6 ++ bucketOf 6 false [a] } := by
  unfold classify bucketOf inBucket
  by_cases h4 : a.Family = 4 <;> by_cases h6 : a.Family = 6 <;> cases hp : a.Public <;>
    simp [h4, h6, hp, List.filter_cons]

theorem bucketOf_cons (fam : Int) (pub : Bool) (a : AddressInfo) (rest : List AddressInfo) :
    bucketOf fam pub (a :: rest) = bucketOf fam pub [a] ++ bucketOf fam pub rest := by
  unfold bucketOf
  rw [← List.map_append, ← List.filter_append]
  rfl

theorem foldl_classify (addresses : List AddressInfo) (b : Buckets) :
    addresses.foldl classify b =
      { publicIPv4 := b.publicIPv4 ++ bucketOf 4 true addresses
        privateIPv4 := b.privateIPv4 ++ bucketOf 4 false addresses
        publicIPv6 := b.publicIPv6 ++ bucketOf 6 true addresses
        privateIPv6 := b.privateIPv6 ++ bucketOf 6 false addresses } := by
  induction addresses generalizing b with
  | nil => simp [bucketOf]
  | cons a rest ih =>
    rw [List.foldl_cons, ih, classify_eq]
    simp only [List.append_assoc, ← bucketOf_cons]

theorem getNetworkAttrs_eq (str : IP → String) (network : NetworkInfo) :
    getNetworkAttrs str network =
      indexedEntries str "PACKET_IPV4_PUBLIC_" (bucketOf 4 true network.Addresses) 0 ++
      indexedEntries str "PACKET_IPV4_PRIVATE_" (bucketOf 4 false network.Addresses) 0 ++
      indexedEntries str "PACKET_IPV6_PUBLIC_" (bucketOf 6 true network.Addresses) 0 ++
      indexedEntries str "PACKET_IPV6_PRIVATE_" (bucketOf 6 false network.Addresses) 0 := by
  unfold getNetworkAttrs
  simp only [foldl_classify, List.nil_append]
  rw [setIndexed_fresh str "PACKET_IPV4_PUBLIC_" _ 0 [] (by simp [StringMap.keys])]
  rw [setIndexed_fresh str "PACKET_IPV4_PRIVATE_" _ 0]
  rw [setIndexed_fresh str "PACKET_IPV6_PUBLIC_" _ 0]
  rw [setIndexed_fresh str "PACKET_IPV6_PRIVATE_" _ 0]
  · simp
  · intro j _ hmem
    simp only [StringMap.keys, List.map_append, List.mem_append, List.nil_append] at hmem
    rcases hmem with (hmem | hmem) | hmem
    · obtain ⟨_, -, -, h⟩ := keys_indexedEntries _ _ _ _ _ hmem
      exact key_ne_of_char _ _ _ _ 10 (by decide) (by decide) (by decide) h
    · obtain ⟨_, -, -, h⟩ := keys_indexedEntries _ _ _ _ _ hmem
      exact key_ne_of_char _ _ _ _ 10 (by decide) (by decide) (by decide) h
    · obtain ⟨_, -, -, h⟩ := keys_indexedEntries _ _ _ _ _ hmem
      exact key_ne_of_char _ _ _ _ 13 (by decide) (by decide) (by decide) h
  · intro j _ hmem
    simp only [StringMap.keys, List.map_append, List.mem_append, List.nil_append] at hmem
    rcases hmem with hmem | hmem
    · obtain ⟨_, -, -, h⟩ := keys_indexedEntries _ _ _ _ _ hmem
      exact key_ne_of_char _ _ _ _ 10 (by decide) (by decide) (by decide) h
    · obtain ⟨_, -, -, h⟩ := keys_indexedEntries _ _ _ _ _ hmem
      exact key_ne_of_char _ _ _ _ 10 (by decide) (by decide) (by decide) h
  · intro j _ hmem
    simp only [List.nil_append] at hmem
    obtain ⟨_, -, -, h⟩ := keys_indexedEntries _ _ _ _ _ hmem
    exact key_ne_of_char _ _ _ _ 13 (by decide) (by decide) (by decide) h

theorem nodup_keys_getNetworkAttrs (str : IP → String) (network : NetworkInfo) :
    (getNetworkAttrs str network).keys.Nodup := by
  rw [getNetworkAttrs_eq]
  simp only [StringMap.keys, List.map_append]
  have nd := fun pfx ips => nodup_keys_indexedEntries str pfx ips 0
  simp only [StringMap.keys] at nd
  have hk := fun pfx ips k h => keys_indexedEntries str pfx ips 0 k h
  simp only [StringMap.keys] at hk
  refine List.Nodup.append (List.Nodup.append (List.Nodup.append (nd _ _) (nd _ _) ?_)
    (nd _ _) ?_) (nd _ _) ?_
  · intro k h1 h2
    obtain ⟨_, -, -, e1⟩ := hk _ _ _ h1
    obtain ⟨_, -, -, e2⟩ := hk _ _ _ h2
    exact key_ne_of_char _ _ _ _ 13 (by decide) (by decide) (by decide) (e1.symm.trans e2)
  · intro k h1 h2
    obtain ⟨_, -, -, e2⟩ := hk _ _ _ h2
    rcases List.mem_append.mp h1 with h1 | h1
    · obtain ⟨_, -, -, e1⟩ := hk _ _ _ h1
      exact key_ne_of_char _ _ _ _ 10 (by decide) (by decide) (by decide) (e1.symm.trans e2)
    · obtain ⟨_, -, -, e1⟩ := hk _ _ _ h1
      exact key_ne_of_char _ _ _ _ 10 (by decide) (by decide) (by decide) (e1.symm.trans e2)
  · intro k h1 h2
    obtain ⟨_, -, -, e2⟩ := hk _ _ _ h2
    rcases List.mem_append.mp h1 with h1 | h1
    · rcases List.mem_append.mp h1 with h1 | h1
      · obtain ⟨_, -, -, e1⟩ := hk _ _ _ h1
        exact key_ne_of_char _ _ _ _ 10 (by decide) (by decide) (by decide) (e1.symm.trans e2)
      · obtain ⟨_, -, -, e1⟩ := hk _ _ _ h1
        exact key_ne_of_char _ _ _ _ 10 (by decide) (by decide) (by decide) (e1.symm.trans e2)
    · obtain ⟨_, -, -, e1⟩ := hk _ _ _ h1
      exact key_ne_of_char _ _ _ _ 13 (by decide) (by decide) (by decide) (e1.symm.trans e2)


theorem bucketIndex_eq (addresses : List AddressInfo) (i : Nat) (addr : AddressInfo) :
    bucketIndex addresses i addr =
      ((addresses.take i).filter (inBucket addr.Family addr.Public)).length := by
  unfold bucketIndex
  rw [List.countP_eq_length_filter]
  congr 2
  funext a
  unfold inBucket
  cases a.Public <;> cases addr.Public <;> simp

theorem bucketName_eq (addr : AddressInfo) (hfam : addr.Family = 4 ∨ addr.Family = 6) :
    (addr.Family = 4 ∧ addr.Public = true ∧ bucketName addr = "PACKET_IPV4_PUBLIC_") ∨
    (addr.Family = 4 ∧ addr.Public = false ∧ bucketName addr = "PACKET_IPV4_PRIVATE_") ∨
    (addr.Family = 6 ∧ addr.Public = true ∧ bucketName addr = "PACKET_IPV6_PUBLIC_") ∨
    (addr.Family = 6 ∧ addr.Public = false ∧ bucketName addr = "PACKET_IPV6_PRIVATE_") := by
  unfold bucketName
  rcases hfam with h | h <;> cases hp : addr.Public <;> simp [h]

theorem mem_indexedEntries_bucket (str : IP → String) (pfx : String)
    (addresses : List AddressInfo) (i : Nat) (h : i < addresses.length) :
    (pfx ++ toString (bucketIndex addresses i (addresses.get ⟨i, h⟩)),
        str (addresses.get ⟨i, h⟩).Address) ∈
      indexedEntries str pfx
        (bucketOf (addresses.get ⟨i, h⟩).Family (addresses.get ⟨i, h⟩).Public addresses) 0 := by
  have hin : inBucket (addresses.get ⟨i, h⟩).Family (addresses.get ⟨i, h⟩).Public
      (addresses.get ⟨i, h⟩) = true := by
    simp [inBucket]
  have hget := filter_map_index _ (fun a : AddressInfo => a.Address) addresses i h hin
  rw [← bucketIndex_eq] at hget
  have := getElem?_indexedEntries str pfx _ 0 _ _ hget
  rwa [Nat.zero_add] at this

theorem mem_getNetworkAttrs (str : IP → String) (network : NetworkInfo) (i : Nat)
    (h : i < network.Addresses.length)
    (hfam : (network.Addresses.get ⟨i, h⟩).Family = 4 ∨
      (network.Addresses.get ⟨i, h⟩).Family = 6) :
    (attrKey network.Addresses i (network.Addresses.get ⟨i, h⟩),
        str (network.Addresses.get ⟨i, h⟩).Address) ∈ getNetworkAttrs str network := by
  rw [getNetworkAttrs_eq]
  unfold attrKey
  have hmem := fun pfx => mem_indexedEntries_bucket str pfx network.Addresses i h
  rcases bucketName_eq _ hfam with ⟨hf, hp, hn⟩ | ⟨hf, hp, hn⟩ | ⟨hf, hp, hn⟩ | ⟨hf, hp, hn⟩ <;>
    · rw [hn]
      have := hmem (bucketName (network.Addresses.get ⟨i, h⟩))
      rw [hf, hp, hn] at this
      simp only [List.mem_append]
      tauto

/-- C8: for every address record of family 4 or 6, the map returned by
`getNetworkAttrs` has under the key made of the name of the record's bucket and
the decimal number of earlier records of the same bucket the string form
(`providers.String`, here `str`) of the record's address. -/
theorem getNetworkAttrs_key_value (str : IP → String) (network : NetworkInfo) (i : Nat)
    (h : i < network.Addresses.length)
    (hfam : (network.Addresses.get ⟨i, h⟩).Family = 4 ∨
      (network.Addresses.get ⟨i, h⟩).Family = 6) :
    (getNetworkAttrs str network).get?
        (bucketName (network.Addresses.get ⟨i, h⟩) ++
          toString (bucketIndex network.Addresses i (network.Addresses.get ⟨i, h⟩))) =
      some (str (network.Addresses.get ⟨i, h⟩).Address) :=
  lookup_of_mem_nodup _ _ _ (mem_getNetworkAttrs str network i h hfam)
    (nodup_keys_getNetworkAttrs str network)

/-- Witness of C8: record 2 of the naming example, public 5.6.7.8, is the
second record of its bucket and is found under `PACKET_IPV4_PUBLIC_1`. -/
theorem getNetworkAttrs_key_value_witness :
    bucketName (namingNetwork.Addresses.get ⟨2, by decide⟩) ++
        toString (bucketIndex namingNetwork.Addresses 2
          (namingNetwork.Addresses.get ⟨2, by decide⟩)) = "PACKET_IPV4_PUBLIC_1" ∧
    (getNetworkAttrs providersString namingNetwork).get?
        (bucketName (namingNetwork.Addresses.get ⟨2, by decide⟩) ++
          toString (bucketIndex namingNetwork.Addresses 2
            (namingNetwork.Addresses.get ⟨2, by decide⟩))) =
      some (providersString (namingNetwork.Addresses.get ⟨2, by decide⟩).Address) :=
  ⟨by decide, getNetworkAttrs_key_value providersString namingNetwork 2 (by decide)
    (by decide)⟩


theorem length_bucketOf_sum (addresses : List AddressInfo) :
    (bucketOf 4 true addresses).length + (bucketOf 4 false addresses).length +
      (bucketOf 6 true addresses).length + (bucketOf 6 false addresses).length =
      addresses.countP (fun a => a.Family = 4 ∨ a.Family = 6) := by
  induction addresses with
  | nil => simp [bucketOf]
  | cons a rest ih =>
    rw [bucketOf_cons 4 true a rest, bucketOf_cons 4 false a rest, bucketOf_cons 6 true a rest,
      bucketOf_cons 6 false a rest]
    simp only [List.length_append, List.countP_cons]
    rw [← ih]
    have h1 : (bucketOf 4 true [a]).length + (bucketOf 4 false [a]).length +
        (bucketOf 6 true [a]).length + (bucketOf 6 false [a]).length =
        if decide (a.Family = 4 ∨ a.Family = 6) = true then 1 else 0 := by
      obtain ⟨fam, pub, addr, mask, gw⟩ := a
      unfold bucketOf inBucket
      by_cases h4 : fam = 4
      · subst h4
        cases pub <;> simp [List.filter_cons]
      · by_cases h6 : fam = 6
        · subst h6
          cases pub <;> simp [List.filter_cons]
        · simp [h4, h6, List.filter_cons]
    omega

theorem total_classify (b : Buckets) (a : AddressInfo) :
    (classify b a).total = b.total + if a.Family = 4 ∨ a.Family = 6 then 1 else 0 := by
  unfold classify Buckets.total
  by_cases h4 : a.Family = 4 <;> by_cases h6 : a.Family = 6 <;> cases hp : a.Public <;>
    simp [h4, h6, hp] <;> omega

theorem bucketOf_filter (fam : Int) (pub : Bool) (hfam : fam = 4 ∨ fam = 6)
    (addresses : List AddressInfo) :
    bucketOf fam pub (addresses.filter (fun a => a.Family = 4 ∨ a.Family = 6)) =
      bucketOf fam pub addresses := by
  unfold bucketOf
  rw [List.filter_filter]
  congr 2
  funext a
  unfold inBucket
  by_cases hf : a.Family = fam
  · rcases hfam with rfl | rfl <;> simp [hf]
  · simp [hf]

theorem countP_take_lt {α : Type} (p : α → Bool) (l : List α) (i j : Nat) (hij : i < j)
    (h : i < l.length) (hp : p (l.get ⟨i, h⟩) = true) :
    (l.take i).countP p < (l.take j).countP p := by
  have h1 : (l.take (i + 1)).countP p = (l.take i).countP p + 1 := by
    rw [List.take_succ, List.getElem?_eq_getElem h, List.countP_append]
    simp only [Option.toList, List.countP_cons, List.countP_nil, Nat.zero_add]
    have : p l[i] = true := hp
    simp [this]
  have h2 := (List.take_sublist_take_left l (show i + 1 ≤ j by omega)).countP_le (p := p)
  omega

theorem attrKey_ne (addresses : List AddressInfo) (i j : Nat) (hij : i < j)
    (hi : i < addresses.length) (hj : j < addresses.length)
    (hfi : (addresses.get ⟨i, hi⟩).Family = 4 ∨ (addresses.get ⟨i, hi⟩).Family = 6)
    (hfj : (addresses.get ⟨j, hj⟩).Family = 4 ∨ (addresses.get ⟨j, hj⟩).Family = 6) :
    attrKey addresses i (addresses.get ⟨i, hi⟩) ≠ attrKey addresses j (addresses.get ⟨j, hj⟩) := by
  unfold attrKey
  have hlt := fun (hsame : (addresses.get ⟨j, hj⟩).Family = (addresses.get ⟨i, hi⟩).Family ∧
      (addresses.get ⟨j, hj⟩).Public = (addresses.get ⟨i, hi⟩).Public) =>
    show bucketIndex addresses i (addresses.get ⟨i, hi⟩) <
        bucketIndex addresses j (addresses.get ⟨j, hj⟩) by
      unfold bucketIndex
      rw [hsame.1, hsame.2]
      exact countP_take_lt _ addresses i j hij hi (by simp)
  rcases bucketName_eq _ hfi with ⟨f1, p1, n1⟩ | ⟨f1, p1, n1⟩ | ⟨f1, p1, n1⟩ | ⟨f1, p1, n1⟩ <;>
    rcases bucketName_eq _ hfj with ⟨f2, p2, n2⟩ | ⟨f2, p2, n2⟩ | ⟨f2, p2, n2⟩ | ⟨f2, p2, n2⟩ <;>
    rw [n1, n2] <;>
    first
    | exact key_ne_of_char _ _ _ _ 10 (by decide) (by decide) (by decide)
    | exact key_ne_of_char _ _ _ _ 13 (by decide) (by decide) (by decide)
    | (intro heq
       have h1 := key_injective _ _ _ heq
       have h2 := hlt ⟨f2.trans f1.symm, p2.trans p1.symm⟩
       omega)

/-- C9: the map returned by `getNetworkAttrs` has exactly as many entries as
there are records of family 4 or 6 and its keys are pairwise distinct; the
`switch` adds a record of family 4 or 6 to exactly one of the four slices and
any other record to none; two different records of family 4 or 6 get different
keys; the records of any other family change nothing in the result; and an
empty address list gives an empty map. -/
theorem getNetworkAttrs_size (str : IP → String) (network : NetworkInfo) :
    (getNetworkAttrs str network).len =
      network.Addresses.countP (fun a => a.Family = 4 ∨ a.Family = 6) ∧
    (getNetworkAttrs str network).keys.Nodup ∧
    (∀ (b : Buckets) (a : AddressInfo),
      (classify b a).total = b.total + if a.Family = 4 ∨ a.Family = 6 then 1 else 0) ∧
    (∀ (i j : Nat) (hi : i < network.Addresses.length) (hj : j < network.Addresses.length),
      ((network.Addresses.get ⟨i, hi⟩).Family = 4 ∨ (network.Addresses.get ⟨i, hi⟩).Family = 6) →
      ((network.Addresses.get ⟨j, hj⟩).Family = 4 ∨ (network.Addresses.get ⟨j, hj⟩).Family = 6) →
      i ≠ j →
      attrKey network.Addresses i (network.Addresses.get ⟨i, hi⟩) ≠
        attrKey network.Addresses j (network.Addresses.get ⟨j, hj⟩)) ∧
    getNetworkAttrs str
        { network with
          Addresses := network.Addresses.filter (fun a => a.Family = 4 ∨ a.Family = 6) } =
      getNetworkAttrs str network ∧
    (network.Addresses = [] → getNetworkAttrs str network = []) := by
  refine ⟨?_, nodup_keys_getNetworkAttrs str network, total_classify, ?_, ?_, ?_⟩
  · rw [getNetworkAttrs_eq, ← length_bucketOf_sum]
    simp only [StringMap.len, List.length_append, length_indexedEntries]
  · intro i j hi hj hfi hfj hne
    rcases Nat.lt_or_gt_of_ne hne with hlt | hgt
    · exact attrKey_ne network.Addresses i j hlt hi hj hfi hfj
    · exact (attrKey_ne network.Addresses j i hgt hj hi hfj hfi).symm
  · rw [getNetworkAttrs_eq, getNetworkAttrs_eq]
    simp only [bucketOf_filter _ _ (Or.inl rfl), bucketOf_filter _ _ (Or.inr rfl)]
  · intro hnil
    rw [getNetworkAttrs_eq, hnil]
    rfl

/-- Witness of C9 on the sample network with a record of family 0 added in
front: the map has four entries, one for each record of family 4 or 6. -/
theorem getNetworkAttrs_size_witness :
    (getNetworkAttrs providersString otherFamilyNetwork).len = 4 ∧
    otherFamilyNetwork.Addresses.length = 5 ∧
    (getNetworkAttrs providersString otherFamilyNetwork).len =
      otherFamilyNetwork.Addresses.countP (fun a => a.Family = 4 ∨ a.Family = 6) ∧
    getNetworkAttrs providersString
        { otherFamilyNetwork with
          Addresses :=
            otherFamilyNetwork.Addresses.filter (fun a => a.Family = 4 ∨ a.Family = 6) } =
      getNetworkAttrs providersString otherFamilyNetwork :=
  ⟨by decide, by decide, (getNetworkAttrs_size providersString otherFamilyNetwork).1,
    (getNetworkAttrs_size providersString otherFamilyNetwork).2.2.2.2.1⟩


/-- C10, as stated, fails: for the address list of the naming example the map
returned by `getNetworkAttrs` has none of the keys `PACKET_PUBLIC_IPV4_0`,
`PACKET_PRIVATE_IPV4_0` and `PACKET_PUBLIC_IPV4_1`. -/
theorem getNetworkAttrs_naming_counterexample :
    (getNetworkAttrs providersString namingNetwork).get? "PACKET_PUBLIC_IPV4_0" = none ∧
    (getNetworkAttrs providersString namingNetwork).get? "PACKET_PRIVATE_IPV4_0" = none ∧
    (getNetworkAttrs providersString namingNetwork).get? "PACKET_PUBLIC_IPV4_1" = none ∧
    ¬ ((getNetworkAttrs providersString namingNetwork).get? "PACKET_PUBLIC_IPV4_0" =
          some "1.2.3.4" ∧
       (getNetworkAttrs providersString namingNetwork).get? "PACKET_PRIVATE_IPV4_0" =
          some "10.1.1.1" ∧
       (getNetworkAttrs providersString namingNetwork).get? "PACKET_PUBLIC_IPV4_1" =
          some "5.6.7.8") := by
  decide

/-- C10, amended: for the address list of the naming example the map returned
by `getNetworkAttrs` has exactly the keys `PACKET_IPV4_PUBLIC_0`,
`PACKET_IPV4_PRIVATE_0` and `PACKET_IPV4_PUBLIC_1`, with the string forms of
1.2.3.4, 10.1.1.1 and 5.6.7.8 as values; and for every address list every key
of the map is `PACKET_`, one of the classes `IPV4_PUBLIC`, `IPV4_PRIVATE`,
`IPV6_PUBLIC`, `IPV6_PRIVATE`, an underscore and a decimal index. -/
theorem getNetworkAttrs_naming :
    (∀ str : IP → String, getNetworkAttrs str namingNetwork =
      [("PACKET_IPV4_PUBLIC_0", str (IPv4 1 2 3 4)),
       ("PACKET_IPV4_PUBLIC_1", str (IPv4 5 6 7 8)),
       ("PACKET_IPV4_PRIVATE_0", str (IPv4 10 1 1 1))]) ∧
    (getNetworkAttrs providersString namingNetwork).len = 3 ∧
    (getNetworkAttrs providersString namingNetwork).get? "PACKET_IPV4_PUBLIC_0" =
      some "1.2.3.4" ∧
    (getNetworkAttrs providersString namingNetwork).get? "PACKET_IPV4_PRIVATE_0" =
      some "10.1.1.1" ∧
    (getNetworkAttrs providersString namingNetwork).get? "PACKET_IPV4_PUBLIC_1" =
      some "5.6.7.8" ∧
    (∀ (str : IP → String) (network : NetworkInfo) (k : String),
      k ∈ (getNetworkAttrs str network).keys →
        ∃ cls ∈ ["IPV4_PUBLIC", "IPV4_PRIVATE", "IPV6_PUBLIC", "IPV6_PRIVATE"],
          ∃ n : Nat, k = "PACKET_" ++ cls ++ "_" ++ toString n) := by
  refine ⟨fun str => rfl, by decide, by decide, by decide, by decide, ?_⟩
  intro str network k hk
  rw [getNetworkAttrs_eq] at hk
  simp only [StringMap.keys, List.map_append, List.mem_append] at hk
  have key := fun pfx ips h => keys_indexedEntries str pfx ips 0 k h
  simp only [StringMap.keys] at key
  rcases hk with ((hk | hk) | hk) | hk
  · obtain ⟨n, -, -, rfl⟩ := key _ _ hk
    exact ⟨"IPV4_PUBLIC", by simp, n,
      by rw [show "PACKET_" ++ "IPV4_PUBLIC" ++ "_" = "PACKET_IPV4_PUBLIC_" by decide]⟩
  · obtain ⟨n, -, -, rfl⟩ := key _ _ hk
    exact ⟨"IPV4_PRIVATE", by simp, n,
      by rw [show "PACKET_" ++ "IPV4_PRIVATE" ++ "_" = "PACKET_IPV4_PRIVATE_" by decide]⟩
  · obtain ⟨n, -, -, rfl⟩ := key _ _ hk
    exact ⟨"IPV6_PUBLIC", by simp, n,
      by rw [show "PACKET_" ++ "IPV6_PUBLIC" ++ "_" = "PACKET_IPV6_PUBLIC_" by decide]⟩
  · obtain ⟨n, -, -, rfl⟩ := key _ _ hk
    exact ⟨"IPV6_PRIVATE", by simp, n,
      by rw [show "PACKET_" ++ "IPV6_PRIVATE" ++ "_" = "PACKET_IPV6_PRIVATE_" by decide]⟩

end Packet

namespace Packet

open Net

/-! ## `FetchMetadata` -/

/-- C11: when the decoded response has a non-empty error string,
`FetchMetadata` returns the empty `Metadata` and the error
`errors.New(data.Error)`, whose message is that string, whatever the rest of
the response is: the device record and its network section are not read. -/
theorem FetchMetadata_provider_error (pm : String → Except String HardwareAddr)
    (str : IP → String) (body : String) (unmarshal : String → Except String ResponseData)
    (data : ResponseData) (hdecoded : unmarshal body = .ok data) (herror : data.Error ≠ "") :
    FetchMetadata pm str (.ok body) unmarshal =
      .returned ({}, some (FetchError.errorsNew data.Error)) := by
  simp only [FetchMetadata, hdecoded]
  rw [if_pos herror]

/-- Witness of C11: the response reports `device not found` and its network
section has a MAC string that does not parse; the error returned is the
reported one, not the error of `parseNetwork`. -/
theorem FetchMetadata_provider_error_witness :
    (parseNetwork ParseMAC badMACNetwork).2 ≠ none ∧
    FetchMetadata ParseMAC providersString (.ok "") (fun _ => .ok errorData) =
      .returned ({}, some (FetchError.errorsNew "device not found")) :=
  ⟨by decide,
    FetchMetadata_provider_error ParseMAC providersString "" (fun _ => .ok errorData) errorData
      rfl (by decide)⟩

/-- C13: with valid interface records, for every address record `r` that is not
skipped (it is public or representable as IPv4), at the position given by the
number of earlier records that are not skipped, the aggregate interface has the
address of `r` with the mask of `r`, and a route whose gateway is the gateway
of `r` and whose destination depends on the `Public` flag and on the address
length only: all-zero of that length for a public record, `privateDestination`
otherwise. -/
theorem parseNetwork_positional_pairing (pm : String → Except String HardwareAddr)
    (network : NetworkInfo)
    (hvalid : ∀ iface ∈ network.Interfaces, ∃ mac, pm iface.MAC = .ok mac)
    (i : Nat) (h : i < network.Addresses.length)
    (hkept : ¬ ((network.Addresses.get ⟨i, h⟩).Public = false ∧
      To4 (network.Addresses.get ⟨i, h⟩).Address = none)) :
    ∃ ifaces agg route, parseNetwork pm network = (some ifaces, none) ∧
      ifaces.getLast? = some agg ∧
      agg.IPAddresses[keptIndex network.Addresses i]? =
        some { IP := (network.Addresses.get ⟨i, h⟩).Address,
               Mask := (network.Addresses.get ⟨i, h⟩).NetworkMask } ∧
      agg.Routes[keptIndex network.Addresses i]? = some route ∧
      route.Gateway = (network.Addresses.get ⟨i, h⟩).Gateway ∧
      route.Destination =
        if (network.Addresses.get ⟨i, h⟩).Public = true then
          { IP := List.replicate
              (if To4 (network.Addresses.get ⟨i, h⟩).Address ≠ none then 4 else 16) 0
            Mask := List.replicate
              (if To4 (network.Addresses.get ⟨i, h⟩).Address ≠ none then 4 else 16) 0 }
        else privateDestination := by
  have hk : isKept (network.Addresses.get ⟨i, h⟩) = true := by
    unfold isKept
    cases hp : (network.Addresses.get ⟨i, h⟩).Public
    · cases h4 : To4 (network.Addresses.get ⟨i, h⟩).Address
      · exact absurd ⟨hp, h4⟩ hkept
      · rfl
    · rfl
  obtain ⟨ifaces, agg, heq, hlast, hip, hroute⟩ :=
    parseNetwork_route_of_kept pm network hvalid i h hk
  refine ⟨ifaces, agg, _, heq, hlast, hip, hroute, rfl, ?_⟩
  cases hp : (network.Addresses.get ⟨i, h⟩).Public
  · simp only [Bool.false_eq_true, if_false]
    exact destinationOf_private _ hp
  · simp only [if_true]
    have hd := destinationOf_public _ hp
    generalize destinationOf (network.Addresses.get ⟨i, h⟩) = d at hd
    obtain ⟨dip, dmask⟩ := d
    simp only at hd
    rw [hd.1, hd.2]

/-- Witness of C13: record 3 of the sample network, a public IPv6 record after
a skipped one, is found at position 2 of both lists. -/
theorem parseNetwork_positional_pairing_witness :
    keptIndex sampleNetwork.Addresses 3 = 2 ∧
    ∃ ifaces agg route, parseNetwork ParseMAC sampleNetwork = (some ifaces, none) ∧
      ifaces.getLast? = some agg ∧
      agg.IPAddresses[keptIndex sampleNetwork.Addresses 3]? =
        some { IP := (sampleNetwork.Addresses.get ⟨3, by decide⟩).Address,
               Mask := (sampleNetwork.Addresses.get ⟨3, by decide⟩).NetworkMask } ∧
      agg.Routes[keptIndex sampleNetwork.Addresses 3]? = some route ∧
      route.Gateway = (sampleNetwork.Addresses.get ⟨3, by decide⟩).Gateway ∧
      route.Destination =
        if (sampleNetwork.Addresses.get ⟨3, by decide⟩).Public = true then
          { IP := List.replicate
              (if To4 (sampleNetwork.Addresses.get ⟨3, by decide⟩).Address ≠ none
                then 4 else 16) 0
            Mask := List.replicate
              (if To4 (sampleNetwork.Addresses.get ⟨3, by decide⟩).Address ≠ none
                then 4 else 16) 0 }
        else privateDestination :=
  ⟨by decide, parseNetwork_positional_pairing ParseMAC sampleNetwork sampleNetwork_valid 3
    (by decide) (by decide)⟩

end Packet

namespace Packet

open Net

/-- C14, as stated, fails: the record of `mappedV6Network` has family 6 and is
not public, and `getNetworkAttrs` names it `PACKET_IPV6_PRIVATE_0`, yet its
address `::ffff:10.0.0.1` is representable as IPv4 and `parseNetwork` gives the
aggregate interface one address and one route for it. -/
theorem parseNetwork_family6_private_counterexample :
    (mappedV6Network.Addresses.map (fun a => (a.Family, a.Public)) = [(6, false)]) ∧
    (getNetworkAttrs providersString mappedV6Network).keys = ["PACKET_IPV6_PRIVATE_0"] ∧
    ∃ ifaces agg, parseNetwork ParseMAC mappedV6Network = (some ifaces, none) ∧
      ifaces.getLast? = some agg ∧
      agg.IPAddresses = [{ IP := IPv4 10 0 0 1, Mask := List.replicate 16 0xff }] ∧
      agg.Routes = [{ Destination := privateDestination, Gateway := IPv4 10 0 0 0 }] :=
  ⟨by decide, by decide, _, _, rfl, rfl, by decide, by decide⟩

/-- C14, amended: with valid interface records, the records that are not public
and not representable as IPv4 contribute nothing to the aggregate interface:
every address and every route of it comes from a record that is public or
representable as IPv4, and `parseNetwork` returns the same list when those
records are removed from the input.  The family of a record plays no part. -/
theorem parseNetwork_skips_private_non_ipv4 (pm : String → Except String HardwareAddr)
    (network : NetworkInfo)
    (hvalid : ∀ iface ∈ network.Interfaces, ∃ mac, pm iface.MAC = .ok mac) :
    ∃ ifaces agg, parseNetwork pm network = (some ifaces, none) ∧
      ifaces.getLast? = some agg ∧
      (∀ e ∈ agg.IPAddresses, ∃ r ∈ network.Addresses,
        ¬ (r.Public = false ∧ To4 r.Address = none) ∧
        e = { IP := r.Address, Mask := r.NetworkMask }) ∧
      (∀ route ∈ agg.Routes, ∃ r ∈ network.Addresses,
        ¬ (r.Public = false ∧ To4 r.Address = none) ∧ route.Gateway = r.Gateway) ∧
      parseNetwork pm
          { network with
            Addresses := network.Addresses.filter
              (fun a => !(!a.Public && (To4 a.Address).isNone)) } =
        (some ifaces, none) := by
  obtain ⟨macs, hm, heq⟩ := parseNetwork_of_valid pm network hvalid
  have hfilter : (fun a : AddressInfo => !(!a.Public && (To4 a.Address).isNone)) = isKept := by
    funext a
    unfold isKept
    cases a.Public <;> cases To4 a.Address <;> simp
  have hkept : ∀ r : AddressInfo, isKept r = true →
      ¬ (r.Public = false ∧ To4 r.Address = none) := by
    intro r hr hn
    simp [isKept, hn.1, hn.2] at hr
  refine ⟨_, _, heq, getLast?_append_singleton _ _, ?_, ?_, ?_⟩
  · intro e he
    rw [aggregateInterface_eq] at he
    obtain ⟨r, hr, rfl⟩ := List.mem_map.mp he
    obtain ⟨hmem, hk⟩ := List.mem_filter.mp hr
    exact ⟨r, hmem, hkept r hk, rfl⟩
  · intro route hroute
    rw [aggregateInterface_eq] at hroute
    obtain ⟨r, hr, rfl⟩ := List.mem_map.mp hroute
    obtain ⟨hmem, hk⟩ := List.mem_filter.mp hr
    exact ⟨r, hmem, hkept r hk, rfl⟩
  · obtain ⟨macs2, hm2, heq2⟩ := parseNetwork_of_valid pm
      { network with
        Addresses := network.Addresses.filter
          (fun a => !(!a.Public && (To4 a.Address).isNone)) } hvalid
    have hsame : macs2 = macs := by
      have h1 := (parseInterfaces_ok_iff pm network.Interfaces [] _).mpr ⟨macs, hm, rfl⟩
      have h2 := (parseInterfaces_ok_iff pm network.Interfaces [] _).mpr ⟨macs2, hm2, rfl⟩
      rw [h1] at h2
      have h3 := Except.ok.inj h2
      simp only [List.nil_append] at h3
      exact (List.map_injective_iff.mpr (fun a b hab => by
        have := congrArg NetworkInterface.HardwareAddress hab
        simpa using this) h3).symm
    rw [heq2, hsame]
    simp only [aggregateInterface_eq, hfilter, List.filter_filter, Bool.and_self]

/-- Witness of C14 amended on the sample network: it has a private IPv6 record,
and removing it leaves the result unchanged. -/
theorem parseNetwork_skips_private_non_ipv4_witness :
    (sampleNetwork.Addresses.filter
      (fun a => !(!a.Public && (To4 a.Address).isNone))).length = 3 ∧
    sampleNetwork.Addresses.length = 4 ∧
    ∃ ifaces agg, parseNetwork ParseMAC sampleNetwork = (some ifaces, none) ∧
      ifaces.getLast? = some agg ∧
      (∀ e ∈ agg.IPAddresses, ∃ r ∈ sampleNetwork.Addresses,
        ¬ (r.Public = false ∧ To4 r.Address = none) ∧
        e = { IP := r.Address, Mask := r.NetworkMask }) ∧
      (∀ route ∈ agg.Routes, ∃ r ∈ sampleNetwork.Addresses,
        ¬ (r.Public = false ∧ To4 r.Address = none) ∧ route.Gateway = r.Gateway) ∧
      parseNetwork ParseMAC
          { sampleNetwork with
            Addresses := sampleNetwork.Addresses.filter
              (fun a => !(!a.Public && (To4 a.Address).isNone)) } =
        (some ifaces, none) :=
  ⟨by decide, by decide,
    parseNetwork_skips_private_non_ipv4 ParseMAC sampleNetwork sampleNetwork_valid⟩

end Packet

namespace Packet

open Net

theorem keys_getNetworkAttrs_form (str : IP → String) (network : NetworkInfo) (k : String)
    (hk : k ∈ (getNetworkAttrs str network).keys) :
    ∃ pfx ∈ ["PACKET_IPV4_PUBLIC_", "PACKET_IPV4_PRIVATE_", "PACKET_IPV6_PUBLIC_",
        "PACKET_IPV6_PRIVATE_"], ∃ n : Nat, k = pfx ++ toString n := by
  rw [getNetworkAttrs_eq] at hk
  simp only [StringMap.keys, List.map_append, List.mem_append] at hk
  have key := fun pfx ips h => keys_indexedEntries str pfx ips 0 k h
  simp only [StringMap.keys] at key
  rcases hk with ((hk | hk) | hk) | hk
  · obtain ⟨n, -, -, h⟩ := key _ _ hk
    exact ⟨_, by simp, n, h⟩
  · obtain ⟨n, -, -, h⟩ := key _ _ hk
    exact ⟨_, by simp, n, h⟩
  · obtain ⟨n, -, -, h⟩ := key _ _ hk
    exact ⟨_, by simp, n, h⟩
  · obtain ⟨n, -, -, h⟩ := key _ _ hk
    exact ⟨_, by simp, n, h⟩

theorem key_ne_fixed (str : IP → String) (network : NetworkInfo) (k : String)
    (hk : k ∈ (getNetworkAttrs str network).keys) :
    k ≠ "PACKET_HOSTNAME" ∧ k ≠ "PACKET_PHONE_HOME_URL" := by
  obtain ⟨pfx, hp, n, rfl⟩ := keys_getNetworkAttrs_form str network k hk
  simp only [List.mem_cons, List.mem_singleton, List.not_mem_nil, or_false] at hp
  have e1 : "PACKET_HOSTNAME" = "PACKET_HOSTNAME" ++ "" := by decide
  have e2 : "PACKET_PHONE_HOME_URL" = "PACKET_PHONE_HOME_URL" ++ "" := by decide
  rw [e1, e2]
  rcases hp with rfl | rfl | rfl | rfl <;>
    exact ⟨key_ne_of_char _ _ _ _ 7 (by decide) (by decide) (by decide),
      key_ne_of_char _ _ _ _ 7 (by decide) (by decide) (by decide)⟩

theorem lookup_of_not_mem (m : StringMap) (k : String) (hk : k ∉ m.keys) :
    List.lookup k m = none := by
  induction m with
  | nil => rfl
  | cons e rest ih =>
    obtain ⟨k', v'⟩ := e
    simp only [StringMap.keys, List.map_cons, List.mem_cons, not_or] at hk
    have hb : (k == k') = false := by simpa using hk.1
    simp only [List.lookup, hb]
    exact ih hk.2

theorem get?_append_two (m : StringMap) (k1 v1 k2 v2 : String) (hne : k1 ≠ k2)
    (h1 : k1 ∉ m.keys) (h2 : k2 ∉ m.keys) :
    (m ++ [(k1, v1), (k2, v2)]).get? k1 = some v1 ∧
    (m ++ [(k1, v1), (k2, v2)]).get? k2 = some v2 ∧
    ∀ k, k ≠ k1 → k ≠ k2 → (m ++ [(k1, v1), (k2, v2)]).get? k = m.get? k := by
  have hnone := lookup_of_not_mem m
  unfold StringMap.get?
  refine ⟨?_, ?_, ?_⟩
  · rw [List.lookup_append, hnone k1 h1]
    simp [List.lookup]
  · rw [List.lookup_append, hnone k2 h2]
    have hb : (k2 == k1) = false := by simpa using (Ne.symm hne)
    simp [List.lookup, hb]
  · intro k hk1 hk2
    rw [List.lookup_append]
    have hb1 : (k == k1) = false := by simpa using hk1
    have hb2 : (k == k2) = false := by simpa using hk2
    simp [List.lookup, hb1, hb2]

/-- With the device record present: for a decoded response with an empty error
string and a device record whose MAC strings all parse, `FetchMetadata` returns
no error and a `Metadata` with the hostname and the SSH keys of the response,
the list of `parseNetwork` as network, and the map of `getNetworkAttrs` with
two more keys: `PACKET_HOSTNAME` with the hostname and `PACKET_PHONE_HOME_URL`
with the phone-home URL.  No key of `getNetworkAttrs` is one of the two, every
other key has the value it has in the map of `getNetworkAttrs`, and the map has
two more entries than there are records of family 4 or 6. -/
theorem FetchMetadata_success (pm : String → Except String HardwareAddr)
    (str : IP → String) (body : String) (unmarshal : String → Except String ResponseData)
    (data : ResponseData) (device : CurrentDevice)
    (hdecoded : unmarshal body = .ok data) (herror : data.Error = "")
    (hdevice : data.CurrentDevice = some device)
    (hvalid : ∀ iface ∈ device.Network.Interfaces, ∃ mac, pm iface.MAC = .ok mac) :
    ∃ md, FetchMetadata pm str (.ok body) unmarshal = .returned (md, none) ∧
      md.Hostname = device.Hostname ∧
      md.SshKeys = device.SSHKeys ∧
      md.Network = (parseNetwork pm device.Network).1 ∧
      md.Attributes.get? "PACKET_HOSTNAME" = some device.Hostname ∧
      md.Attributes.get? "PACKET_PHONE_HOME_URL" = some data.PhoneHomeURL ∧
      (∀ k, k ≠ "PACKET_HOSTNAME" → k ≠ "PACKET_PHONE_HOME_URL" →
        md.Attributes.get? k = (getNetworkAttrs str device.Network).get? k) ∧
      (∀ k ∈ (getNetworkAttrs str device.Network).keys,
        k ≠ "PACKET_HOSTNAME" ∧ k ≠ "PACKET_PHONE_HOME_URL") ∧
      md.Attributes.len =
        device.Network.Addresses.countP (fun a => a.Family = 4 ∨ a.Family = 6) + 2 := by
  obtain ⟨macs, -, heq⟩ := parseNetwork_of_valid pm device.Network hvalid
  have hfixed := key_ne_fixed str device.Network
  have h1 : "PACKET_HOSTNAME" ∉ (getNetworkAttrs str device.Network).keys :=
    fun h => (hfixed _ h).1 rfl
  have h2 : "PACKET_PHONE_HOME_URL" ∉ (getNetworkAttrs str device.Network).keys :=
    fun h => (hfixed _ h).2 rfl
  have hset : ((getNetworkAttrs str device.Network).set "PACKET_HOSTNAME" device.Hostname).set
      "PACKET_PHONE_HOME_URL" data.PhoneHomeURL =
      getNetworkAttrs str device.Network ++
        [("PACKET_HOSTNAME", device.Hostname), ("PACKET_PHONE_HOME_URL", data.PhoneHomeURL)] := by
    rw [set_fresh _ _ _ h1, set_fresh]
    · simp
    · simp only [StringMap.keys, List.map_append, List.map_cons, List.map_nil, List.mem_append,
        List.mem_singleton, not_or]
      exact ⟨h2, by decide⟩
  obtain ⟨g1, g2, g3⟩ := get?_append_two (getNetworkAttrs str device.Network)
    "PACKET_HOSTNAME" device.Hostname "PACKET_PHONE_HOME_URL" data.PhoneHomeURL
    (by decide) h1 h2
  refine ⟨Metadata.mk
    (((getNetworkAttrs str device.Network).set "PACKET_HOSTNAME" device.Hostname).set
      "PACKET_PHONE_HOME_URL" data.PhoneHomeURL)
    device.Hostname device.SSHKeys (parseNetwork pm device.Network).1,
    ?_, rfl, rfl, rfl, ?_, ?_, ?_, hfixed, ?_⟩
  · simp only [FetchMetadata, hdecoded, hdevice, herror, ne_eq, not_true_eq_false, if_false, heq]
  · simp only [hset]
    exact g1
  · simp only [hset]
    exact g2
  · simp only [hset]
    exact g3
  · simp only [hset, StringMap.len, List.length_append, List.length_cons, List.length_nil]
    rw [getNetworkAttrs_eq, ← length_bucketOf_sum]
    simp only [List.length_append, length_indexedEntries]

/-- The sample response, which has a device record: four address attributes and
the two fixed keys. -/
theorem FetchMetadata_success_witness :
    ∃ md, FetchMetadata ParseMAC providersString (.ok "") (fun _ => .ok sampleData) =
        .returned (md, none) ∧
      md.Hostname = "node1" ∧
      md.SshKeys = ["ssh-rsa AAAA"] ∧
      md.Network = (parseNetwork ParseMAC sampleNetwork).1 ∧
      md.Attributes.get? "PACKET_HOSTNAME" = some "node1" ∧
      md.Attributes.get? "PACKET_PHONE_HOME_URL" = some sampleData.PhoneHomeURL ∧
      (∀ k, k ≠ "PACKET_HOSTNAME" → k ≠ "PACKET_PHONE_HOME_URL" →
        md.Attributes.get? k = (getNetworkAttrs providersString sampleNetwork).get? k) ∧
      (∀ k ∈ (getNetworkAttrs providersString sampleNetwork).keys,
        k ≠ "PACKET_HOSTNAME" ∧ k ≠ "PACKET_PHONE_HOME_URL") ∧
      md.Attributes.len =
        sampleNetwork.Addresses.countP (fun a => a.Family = 4 ∨ a.Family = 6) + 2 :=
  FetchMetadata_success ParseMAC providersString "" (fun _ => .ok sampleData) sampleData
    { Hostname := "node1", SSHKeys := ["ssh-rsa AAAA"], Network := sampleNetwork }
    rfl rfl rfl sampleNetwork_valid

/-- C15: the response `emptyData` has an empty error string and no interface
record, so no MAC string of it fails to parse, and `FetchMetadata` does not
succeed on it: it panics on line 53 and returns no `Metadata`, with or without
error.  The sample response, which has a device record, is answered with a
`Metadata` and no error. -/
theorem FetchMetadata_success_needs_device :
    emptyData.Error = "" ∧
    (∀ device, emptyData.CurrentDevice = some device →
      ∀ iface ∈ device.Network.Interfaces, ∃ mac, ParseMAC iface.MAC = .ok mac) ∧
    FetchMetadata ParseMAC providersString (.ok "\x7b\x7d") (fun _ => .ok emptyData) =
      .panicked nilDereference ∧
    (¬ ∃ md err, FetchMetadata ParseMAC providersString (.ok "\x7b\x7d")
      (fun _ => .ok emptyData) = .returned (md, err)) ∧
    (∃ md, FetchMetadata ParseMAC providersString (.ok "") (fun _ => .ok sampleData) =
      .returned (md, none)) := by
  refine ⟨rfl, ?_, rfl, ?_, ?_⟩
  · intro device hdevice
    cases hdevice
  · rintro ⟨md, err, h⟩
    have hp : FetchMetadata ParseMAC providersString (.ok "\x7b\x7d")
        (fun _ => .ok emptyData) = .panicked nilDereference := rfl
    rw [hp] at h
    cases h
  · obtain ⟨md, h, -⟩ := FetchMetadata_success ParseMAC providersString ""
      (fun _ => .ok sampleData) sampleData
      { Hostname := "node1", SSHKeys := ["ssh-rsa AAAA"], Network := sampleNetwork }
      rfl rfl rfl sampleNetwork_valid
    exact ⟨md, h⟩

/-- C16: `FetchMetadata` does not return on a decoded response without device
record and without error string: reading `data.Network` through the nil
embedded pointer panics.  This is so for the decoded form of the empty JSON
object and for every response of that kind. -/
theorem FetchMetadata_nil_device_panics :
    FetchMetadata ParseMAC providersString (.ok "\x7b\x7d") (fun _ => .ok emptyData) =
      .panicked nilDereference ∧
    ∀ (pm : String → Except String HardwareAddr) (str : IP → String) (body : String)
      (unmarshal : String → Except String ResponseData) (data : ResponseData),
      unmarshal body = .ok data → data.Error = "" → data.CurrentDevice = none →
        FetchMetadata pm str (.ok body) unmarshal = .panicked nilDereference := by
  refine ⟨rfl, ?_⟩
  intro pm str body unmarshal data hdecoded herror hdevice
  simp only [FetchMetadata, hdecoded, hdevice, herror, ne_eq, not_true_eq_false, if_false]

end Packet

namespace Strings

/-! ## Cutting a string at a separator -/

theorem cut_of_prefix (sep : Char) (k : List Char) (hk : sep ∉ k) (v : List Char) :
    cut sep (k ++ sep :: v) = (k, some v) := by
  induction k with
  | nil => simp [cut]
  | cons a k ih =>
    have ha : a ≠ sep := fun h => hk (by simp [h])
    have hk2 : sep ∉ k := fun h => hk (List.mem_cons_of_mem _ h)
    have hrest := ih hk2
    rw [List.cons_append]
    unfold cut
    rw [if_neg ha, hrest]

theorem prefix_of_cut (sep : Char) (t k v : List Char) (h : cut sep t = (k, some v)) :
    t = k ++ sep :: v := by
  induction t generalizing k with
  | nil => simp [cut] at h
  | cons c rest ih =>
    by_cases hc : c = sep
    · simp only [cut, if_pos hc, Prod.mk.injEq, Option.some.injEq] at h
      obtain ⟨rfl, rfl⟩ := h
      simp [hc]
    · simp only [cut, if_neg hc, Prod.mk.injEq] at h
      obtain ⟨rfl, h2⟩ := h
      have := ih (cut sep rest).1 (Prod.ext rfl h2)
      simp only [List.cons_append]
      rw [← this]

end Strings

namespace Main

open Net Strings

/-! ## `parseCmdline` -/

theorem parseCmdlineStep_eq (oem : String) (arg : List Char) :
    parseCmdlineStep oem arg = (oemValue? (TrimSpace arg)).getD oem := by
  unfold parseCmdlineStep oemValue?
  generalize TrimSpace arg = t
  have hflag : '=' ∉ cmdlineOEMFlag.data := by decide
  by_cases hp : (cmdlineOEMFlag.data ++ ['=']).isPrefixOf t = true
  · obtain ⟨v, rfl⟩ := List.isPrefixOf_iff_prefix.mp hp
    have hcut : cut '=' (cmdlineOEMFlag.data ++ ['='] ++ v) = (cmdlineOEMFlag.data, some v) := by
      have := cut_of_prefix '=' cmdlineOEMFlag.data hflag v
      simpa using this
    have hdrop : List.drop (cmdlineOEMFlag.data.length + 1)
        (cmdlineOEMFlag.data ++ ['='] ++ v) = v :=
      List.drop_left' (by simp)
    simp only [hp, SplitN2, hcut, if_true, Option.getD_some, hdrop]
    simp
  · simp only [hp, Option.getD_none, Bool.false_eq_true, if_false]
    cases hc : cut '=' t with
    | mk before after =>
      cases after with
      | none => simp [SplitN2, hc]
      | some v =>
        have ht := prefix_of_cut '=' t before v hc
        have hne : before ≠ cmdlineOEMFlag.data := by
          rintro rfl
          apply hp
          rw [List.isPrefixOf_iff_prefix, ht]
          exact ⟨v, by simp⟩
        simp [SplitN2, hc, hne]

theorem foldl_getD_eq {α β : Type} (f : α → Option β) (l : List α) (init : β) :
    l.foldl (fun acc a => (f a).getD acc) init = ((l.filterMap f).getLast?).getD init := by
  induction l generalizing init with
  | nil => rfl
  | cons a rest ih =>
    rw [List.foldl_cons, ih, List.filterMap_cons]
    cases hfa : f a with
    | none => simp
    | some b =>
      simp only [Option.getD_some]
      cases hrest : rest.filterMap f with
      | nil => simp
      | cons c cs =>
        rw [List.getLast?_cons_cons, List.getLast?_eq_getLast _ (List.cons_ne_nil c cs)]
        rfl

/-- The loop of `parseCmdline` gives the value of the last trimmed piece that
has one. -/
theorem parseCmdline_eq_lastOemValue (cmdline : String) :
    parseCmdline cmdline = lastOemValue cmdline := by
  unfold parseCmdline lastOemValue
  have hstep : parseCmdlineStep = fun oem arg => (oemValue? (TrimSpace arg)).getD oem := by
    funext oem arg
    exact parseCmdlineStep_eq oem arg
  rw [hstep, foldl_getD_eq (fun arg => oemValue? (TrimSpace arg)), List.filterMap_map]
  rfl

/-! ## `writeMetadata` -/

theorem Fprintf_of_no_failure (out : File) (text : String)
    (hok : ∀ f ∈ out.failures, f = none) :
    (out.Fprintf text).2 = none ∧
    (out.Fprintf text).1.written = out.written ++ [text] ∧
    ∀ f ∈ (out.Fprintf text).1.failures, f = none := by
  unfold File.Fprintf
  cases hf : out.failures with
  | nil => simp [hf]
  | cons f rest =>
    rw [hf] at hok
    have h0 := hok f (List.mem_cons_self _ _)
    subst h0
    refine ⟨rfl, rfl, ?_⟩
    intro g hg
    exact hok g (List.mem_cons_of_mem _ hg)

theorem writeIPVariable_of_no_failure (out : File) (key : String) (value : IP)
    (hok : ∀ f ∈ out.failures, f = none) :
    (writeIPVariable out key value).2 = none ∧
    (writeIPVariable out key value).1.written =
      out.written ++ (if value = [] then [] else [key ++ "=" ++ IP.String value ++ "\n"]) ∧
    ∀ f ∈ (writeIPVariable out key value).1.failures, f = none := by
  unfold writeIPVariable
  by_cases hv : value = []
  · subst hv
    simpa using hok
  · have hlen : ¬ value.length = 0 := fun h => hv (List.length_eq_zero.mp h)
    simp only [hlen, hv, if_false]
    exact Fprintf_of_no_failure out _ hok

theorem writeStringVariable_of_no_failure (out : File) (key value : String)
    (hok : ∀ f ∈ out.failures, f = none) :
    (writeStringVariable out key value).2 = none ∧
    (writeStringVariable out key value).1.written =
      out.written ++ (if value = "" then [] else [key ++ "=" ++ value ++ "\n"]) ∧
    ∀ f ∈ (writeStringVariable out key value).1.failures, f = none := by
  unfold writeStringVariable
  by_cases hv : value = ""
  · subst hv
    simpa using hok
  · have hlen : ¬ value.length = 0 := by
      intro h
      apply hv
      apply String.ext
      exact List.length_eq_zero.mp h
    simp only [hlen, hv, if_false]
    exact Fprintf_of_no_failure out _ hok

end Main

namespace Main

open Net Strings

/-- C12: when no write fails, `writeMetadata` returns no error and adds to the
file, in the order `COREOS_IPV4_PUBLIC`, `COREOS_IPV4_LOCAL`, `COREOS_HOSTNAME`,
one text `KEY=value` ended by a newline for each non-empty field and nothing for
an empty field; so it makes as many writes as there are non-empty fields, and
none when all three fields are empty. -/
theorem writeMetadata_lines (out : File) (metadata : ConfigMetadata)
    (hok : ∀ f ∈ out.failures, f = none) :
    (writeMetadata out metadata).2 = none ∧
    (writeMetadata out metadata).1.written = out.written ++ metadataLines metadata ∧
    (metadataLines metadata).length = nonEmptyFields metadata ∧
    (writeMetadata out metadata).1.written.length = out.written.length + nonEmptyFields metadata ∧
    (metadata.PublicIPv4 = [] → metadata.LocalIPv4 = [] → metadata.Hostname = "" →
      (writeMetadata out metadata).1.written = out.written) := by
  obtain ⟨e1, w1, f1⟩ := writeIPVariable_of_no_failure out "COREOS_IPV4_PUBLIC"
    metadata.PublicIPv4 hok
  obtain ⟨e2, w2, f2⟩ := writeIPVariable_of_no_failure
    (writeIPVariable out "COREOS_IPV4_PUBLIC" metadata.PublicIPv4).1 "COREOS_IPV4_LOCAL"
    metadata.LocalIPv4 f1
  obtain ⟨e3, w3, -⟩ := writeStringVariable_of_no_failure
    (writeIPVariable (writeIPVariable out "COREOS_IPV4_PUBLIC" metadata.PublicIPv4).1
      "COREOS_IPV4_LOCAL" metadata.LocalIPv4).1 "COREOS_HOSTNAME" metadata.Hostname f2
  have hres : writeMetadata out metadata =
      ((writeStringVariable
        (writeIPVariable (writeIPVariable out "COREOS_IPV4_PUBLIC" metadata.PublicIPv4).1
          "COREOS_IPV4_LOCAL" metadata.LocalIPv4).1 "COREOS_HOSTNAME" metadata.Hostname).1,
        none) := by
    unfold writeMetadata
    generalize writeIPVariable out "COREOS_IPV4_PUBLIC" metadata.PublicIPv4 = r1 at *
    obtain ⟨o1, x1⟩ := r1
    simp only at e1
    subst e1
    simp only
    generalize writeIPVariable o1 "COREOS_IPV4_LOCAL" metadata.LocalIPv4 = r2 at *
    obtain ⟨o2, x2⟩ := r2
    simp only at e2
    subst e2
    simp only
    generalize writeStringVariable o2 "COREOS_HOSTNAME" metadata.Hostname = r3 at *
    obtain ⟨o3, x3⟩ := r3
    simp only at e3
    subst e3
    rfl
  have hlen : (metadataLines metadata).length = nonEmptyFields metadata := by
    unfold metadataLines nonEmptyFields
    by_cases h1 : metadata.PublicIPv4 = [] <;> by_cases h2 : metadata.LocalIPv4 = [] <;>
      by_cases h3 : metadata.Hostname = "" <;> simp [h1, h2, h3]
  have hwritten : (writeMetadata out metadata).1.written =
      out.written ++ metadataLines metadata := by
    have k1 : "COREOS_IPV4_PUBLIC" ++ "=" = "COREOS_IPV4_PUBLIC=" := by decide
    have k2 : "COREOS_IPV4_LOCAL" ++ "=" = "COREOS_IPV4_LOCAL=" := by decide
    have k3 : "COREOS_HOSTNAME" ++ "=" = "COREOS_HOSTNAME=" := by decide
    rw [hres]
    simp only [w3, w2, w1, metadataLines, List.append_assoc, k1, k2, k3]
  refine ⟨by rw [hres], hwritten, hlen, ?_, ?_⟩
  · rw [hwritten, List.length_append, hlen]
  · intro h1 h2 h3
    rw [hwritten]
    simp [metadataLines, h1, h2, h3]

/-- Witness of C12: a public address, no local address and a hostname give two
lines. -/
theorem writeMetadata_lines_witness :
    metadataLines sampleMetadata =
      ["COREOS_IPV4_PUBLIC=1.2.3.4\n", "COREOS_HOSTNAME=node1\n"] ∧
    (writeMetadata { written := ["# generated\n"], failures := [none] } sampleMetadata).2 =
      none ∧
    (writeMetadata { written := ["# generated\n"], failures := [none] }
        sampleMetadata).1.written =
      ["# generated\n"] ++ metadataLines sampleMetadata :=
  ⟨by decide,
    (writeMetadata_lines { written := ["# generated\n"], failures := [none] } sampleMetadata
      (by decide)).1,
    (writeMetadata_lines { written := ["# generated\n"], failures := [none] } sampleMetadata
      (by decide)).2.1⟩

/-! ## `main` and `fetchMetadata` -/

/-- C18: the `switch` of `main` lets exactly the providers `ec2` and `azure`
through, for which `fetchMetadata` returns the result of the provider's
fetcher; for every other provider, the empty string that `parseCmdline` gives
for a command line without the flag included, `fetchMetadata` would panic but
`main` exits with status 2 before calling it.  So `main` never panics. -/
theorem main_never_panics (env : Env) :
    (∀ provider, validProvider provider = true ↔ provider = "ec2" ∨ provider = "azure") ∧
    fetchMetadata env "ec2" = .returned env.ec2 ∧
    fetchMetadata env "azure" = .returned env.azure ∧
    (∀ provider, validProvider provider = true →
      ∃ r, fetchMetadata env provider = .returned r) ∧
    (∀ provider, validProvider provider = false →
      fetchMetadata env provider = .panicked "bad provider") ∧
    (∀ flags provider, flags.version = false → resolveProvider flags env = some provider →
      validProvider provider = false →
      main flags env = .returned { status := 2, out := none }) ∧
    validProvider (parseCmdline "BOOT_IMAGE=/vmlinuz console=ttyS0\n") = false ∧
    validProvider "" = false ∧
    (∀ flags, ∃ r, main flags env = .returned r) := by
  have hvalid : ∀ provider, validProvider provider = true ↔
      provider = "ec2" ∨ provider = "azure" := by
    intro provider
    simp [validProvider]
  have hfetch : ∀ provider, validProvider provider = true →
      ∃ r, fetchMetadata env provider = .returned r := by
    intro provider hp
    rcases (hvalid provider).mp hp with rfl | rfl
    · exact ⟨env.ec2, rfl⟩
    · exact ⟨env.azure, rfl⟩
  refine ⟨hvalid, rfl, rfl, hfetch, ?_, ?_, by decide, by decide, ?_⟩
  · intro provider hp
    have h1 : provider ≠ "ec2" := fun h => by simp [validProvider, h] at hp
    have h2 : provider ≠ "azure" := fun h => by simp [validProvider, h] at hp
    simp [fetchMetadata, h1, h2]
  · intro flags provider hv hr hp
    simp [main, hv, hr, hp]
  · intro flags
    unfold main
    by_cases hv : flags.version = true
    · exact ⟨_, by rw [if_pos hv]⟩
    · rw [if_neg hv]
      cases hr : resolveProvider flags env with
      | none => exact ⟨_, rfl⟩
      | some provider =>
        simp only
        cases hp : validProvider provider with
        | false => exact ⟨_, rfl⟩
        | true =>
          simp only [Bool.not_true, Bool.false_eq_true, if_false]
          cases hm : env.mkdirAll with
          | some e => exact ⟨_, rfl⟩
          | none =>
            simp only
            cases hc : env.create with
            | error e => exact ⟨_, rfl⟩
            | ok out =>
              simp only
              obtain ⟨r, hr2⟩ := hfetch provider hp
              rw [hr2]
              obtain ⟨metadata, err⟩ := r
              cases err with
              | some e => exact ⟨_, rfl⟩
              | none =>
                simp only
                cases hw : writeMetadata out metadata with
                | mk o e =>
                  cases e with
                  | some e => exact ⟨_, rfl⟩
                  | none => exact ⟨_, rfl⟩

end Main

namespace Net

/-! ## The private network as `net.IPNet` reads it -/

end Net

namespace Packet

open Net

end Packet

namespace Packet

open Net

end Packet

namespace Strings

/-! ## Splitting and trimming -/

theorem Split_ne_nil (sep : Char) (s : List Char) : Split sep s ≠ [] := by
  cases s with
  | nil => simp [Split]
  | cons c rest =>
    unfold Split
    split_ifs
    · simp
    · cases Split sep rest <;> simp

theorem not_mem_of_mem_Split (sep : Char) (s : List Char) :
    ∀ p ∈ Split sep s, sep ∉ p := by
  induction s with
  | nil => simp [Split]
  | cons c rest ih =>
    intro p hp
    unfold Split at hp
    split_ifs at hp with hc
    · rcases List.mem_cons.mp hp with rfl | hp
      · simp
      · exact ih p hp
    · cases hs : Split sep rest with
      | nil => exact absurd hs (Split_ne_nil sep rest)
      | cons q qs =>
        rw [hs] at hp ih
        simp only at hp
        rcases List.mem_cons.mp hp with rfl | hp
        · intro hmem
          rcases List.mem_cons.mp hmem with h | h
          · exact hc h.symm
          · exact ih q (List.mem_cons_self _ _) h
        · exact ih p (List.mem_cons_of_mem _ hp)

theorem intercalate_cons_cons (sep : Char) (p q : List Char) (qs : List (List Char)) :
    List.intercalate [sep] (p :: q :: qs) = p ++ sep :: List.intercalate [sep] (q :: qs) := by
  simp [List.intercalate, List.intersperse]

theorem intercalate_Split (sep : Char) (s : List Char) :
    List.intercalate [sep] (Split sep s) = s := by
  induction s with
  | nil => simp [Split, List.intercalate]
  | cons c rest ih =>
    unfold Split
    cases hs : Split sep rest with
    | nil => exact absurd hs (Split_ne_nil sep rest)
    | cons q qs =>
      rw [hs] at ih
      split_ifs with hc
      · rw [intercalate_cons_cons, ih, hc]
        rfl
      · simp only
        cases qs with
        | nil =>
          simp only [List.intercalate, List.intersperse, List.flatten, List.append_nil] at ih ⊢
          rw [ih]
        | cons r rs =>
          rw [intercalate_cons_cons] at ih ⊢
          rw [List.cons_append, ih]

theorem isSpace_iff (c : Char) : isSpace c = true ↔ c ∈ Main.whiteSpace := by
  constructor
  · intro h
    have hc : c = Char.ofNat c.toNat := (Char.ofNat_toNat c).symm
    unfold isSpace at h
    simp only [Bool.or_eq_true, Bool.and_eq_true, decide_eq_true_eq, beq_iff_eq] at h
    generalize c.toNat = r at h hc
    subst hc
    rcases h with (((((((((h | h) | h) | h) | h) | h) | h) | h) | h) | h) | h
    · obtain ⟨h1, h2⟩ := h
      interval_cases r <;> decide
    · subst h; decide
    · subst h; decide
    · subst h; decide
    · subst h; decide
    · obtain ⟨h1, h2⟩ := h
      interval_cases r <;> decide
    · subst h; decide
    · subst h; decide
    · subst h; decide
    · subst h; decide
    · subst h; decide
  · intro h
    simp only [Main.whiteSpace, List.mem_cons, List.mem_singleton, List.not_mem_nil,
      or_false] at h
    rcases h with h | h | h | h | h | h | h | h | h | h | h | h | h | h | h | h | h | h | h |
      h | h | h | h | h | h <;> subst h <;> decide

theorem TrimSpace_spec (p : List Char) :
    ∃ l r, p = l ++ TrimSpace p ++ r ∧ (∀ c ∈ l, isSpace c = true) ∧
      (∀ c ∈ r, isSpace c = true) ∧
      (∀ c, (TrimSpace p).head? = some c → isSpace c = false) ∧
      (∀ c, (TrimSpace p).getLast? = some c → isSpace c = false) := by
  have hback : (p.dropWhile isSpace) = TrimSpace p ++
      ((p.dropWhile isSpace).reverse.takeWhile isSpace).reverse := by
    unfold TrimSpace
    rw [← List.reverse_append, List.takeWhile_append_dropWhile, List.reverse_reverse]
  have hlast : ∀ c, (TrimSpace p).getLast? = some c → isSpace c = false := by
    intro c hc
    unfold TrimSpace at hc
    rw [List.getLast?_reverse] at hc
    have := List.head?_dropWhile_not isSpace (p.dropWhile isSpace).reverse
    rw [hc] at this
    simpa using this
  refine ⟨p.takeWhile isSpace, ((p.dropWhile isSpace).reverse.takeWhile isSpace).reverse,
    ?_, ?_, ?_, ?_, hlast⟩
  · rw [List.append_assoc, ← hback, List.takeWhile_append_dropWhile]
  · intro c hc
    exact List.mem_takeWhile_imp hc
  · intro c hc
    exact List.mem_takeWhile_imp (List.mem_reverse.mp hc)
  · intro c hc
    have hne : TrimSpace p ≠ [] := by
      intro h
      rw [h] at hc
      cases hc
    have hhead : (p.dropWhile isSpace).head? = some c := by
      rw [hback, List.head?_append_of_ne_nil _ hne]
      exact hc
    have := List.head?_dropWhile_not isSpace p
    rw [hhead] at this
    simpa using this

end Strings

namespace Main

open Net Strings

theorem oemValue?_of_form (v : List Char) :
    oemValue? ("coreos.oem.id=".data ++ v) = some (String.mk v) := by
  unfold oemValue?
  have hp : (cmdlineOEMFlag.data ++ ['=']).isPrefixOf ("coreos.oem.id=".data ++ v) = true := by
    rw [List.isPrefixOf_iff_prefix]
    exact ⟨v, rfl⟩
  rw [if_pos hp]
  rfl

theorem oemValue?_of_not_form (t : List Char) (h : ∀ v, t ≠ "coreos.oem.id=".data ++ v) :
    oemValue? t = none := by
  unfold oemValue?
  have hp : ¬ (cmdlineOEMFlag.data ++ ['=']).isPrefixOf t = true := by
    rw [List.isPrefixOf_iff_prefix]
    rintro ⟨v, rfl⟩
    exact h v rfl
  rw [if_neg hp]

/-- C17: for every command line there are its pieces between single spaces
(none of them contains a space, and joined by single spaces they give the
command line back) and, for each piece, the token left when the white space of
Unicode is taken off both its ends, such that `parseCmdline` returns the value
of the last token that has one, and the empty string when no token has one.
The value of a token is the text after `coreos.oem.id=` when the token starts
with `coreos.oem.id=`, equals signs included, and no other token has a value,
the bare `coreos.oem.id` among them.  The instances: a newline after the value
is trimmed, a tab does not separate tokens, two spaces give an empty piece, the
last value wins, a value may contain `=`, a bare flag changes nothing, and a
command line without the flag gives the empty string. -/
theorem parseCmdline_last_oem_value (cmdline : String) :
    (∃ pieces tokens : List (List Char),
      pieces ≠ [] ∧ (∀ p ∈ pieces, ' ' ∉ p) ∧
      List.intercalate [' '] pieces = cmdline.data ∧
      List.Forall₂
        (fun p t => ∃ l r, p = l ++ t ++ r ∧
          (∀ c ∈ l, c ∈ whiteSpace) ∧ (∀ c ∈ r, c ∈ whiteSpace) ∧
          (∀ c, t.head? = some c → c ∉ whiteSpace) ∧
          (∀ c, t.getLast? = some c → c ∉ whiteSpace))
        pieces tokens ∧
      parseCmdline cmdline = ((tokens.filterMap oemValue?).getLast?).getD "") ∧
    (∀ v : List Char, oemValue? ("coreos.oem.id=".data ++ v) = some (String.mk v)) ∧
    (∀ t : List Char, (∀ v, t ≠ "coreos.oem.id=".data ++ v) → oemValue? t = none) ∧
    oemValue? "coreos.oem.id".data = none ∧
    parseCmdline "BOOT_IMAGE=/vmlinuz coreos.oem.id=ec2\n" = "ec2" ∧
    parseCmdline "\tcoreos.oem.id=azure\r\n console=ttyS0" = "azure" ∧
    parseCmdline "coreos.oem.id=a\tcoreos.oem.id=b" = "a\tcoreos.oem.id=b" ∧
    parseCmdline "coreos.oem.id=a  coreos.oem.id=b=c " = "b=c" ∧
    parseCmdline "coreos.oem.id=ec2 coreos.oem.id" = "ec2" ∧
    parseCmdline "coreos.oem.id=ec2 coreos.oem.id=" = "" ∧
    parseCmdline "xcoreos.oem.id=ec2 coreos.oem.idx=1 console=ttyS0\n" = "" := by
  refine ⟨⟨Split ' ' cmdline.data, (Split ' ' cmdline.data).map TrimSpace,
    Split_ne_nil _ _, not_mem_of_mem_Split _ _, intercalate_Split _ _, ?_,
    parseCmdline_eq_lastOemValue cmdline⟩,
    oemValue?_of_form, oemValue?_of_not_form, by decide, by decide, by decide, by decide,
    by decide, by decide, by decide, by decide⟩
  rw [List.forall₂_map_right_iff, List.forall₂_same]
  intro p _
  obtain ⟨l, r, hp, hl, hr, hhead, hlast⟩ := TrimSpace_spec p
  refine ⟨l, r, hp, fun c hc => (isSpace_iff c).mp (hl c hc),
    fun c hc => (isSpace_iff c).mp (hr c hc), ?_, ?_⟩
  · intro c hc hmem
    have := hhead c hc
    rw [(isSpace_iff c).mpr hmem] at this
    cases this
  · intro c hc hmem
    have := hlast c hc
    rw [(isSpace_iff c).mpr hmem] at this
    cases this

end Main
